import Mathlib

/-!
# Verification of the hw-app-conflux EIP-712 encoding pipeline

Shallow embedding of the EIP-712 typed-data encoding pipeline of the
`hw-app-conflux` repository (`src/eip712/codec.ts`, `src/eip712/typedData.ts`,
`src/eip712/transport.ts`, `src/eip712/types.ts`), together with theorems
settling the frozen specification claims.

Byte strings are modelled as `List Nat` (each entry a byte value), JavaScript
bigints as `Int`, and fallible TypeScript functions (which `throw`) as
`Except String`.
-/

namespace HwAppConflux

/-- Decidable equality for `Except`, so that concrete runs of the embedded
functions can be checked by `decide`. -/
instance {ε α : Type} [DecidableEq ε] [DecidableEq α] : DecidableEq (Except ε α)
  | .error e, .error f =>
      if h : e = f then .isTrue (by rw [h]) else .isFalse (by simp [h])
  | .error _, .ok _ => .isFalse (by simp)
  | .ok _, .error _ => .isFalse (by simp)
  | .ok a, .ok b =>
      if h : a = b then .isTrue (by rw [h]) else .isFalse (by simp [h])

/-- `EIP712FieldKind` from `src/eip712/types.ts`. -/
inductive EIP712FieldKind where
  | custom
  | int
  | uint
  | address
  | bool
  | string
  | fixedBytes
  | dynamicBytes
deriving DecidableEq, Repr

/-- `EIP712ArrayLevel` from `src/eip712/types.ts`:
either `{ kind: "dynamic" }` or `{ kind: "fixed", length }`. -/
inductive EIP712ArrayLevel where
  | dynamic
  | fixed (length : Nat)
deriving DecidableEq, Repr

/-- `EIP712FieldType` from `src/eip712/types.ts`: the tagged union of field
types; `int`/`uint`/`fixed-bytes` carry a byte size, `custom` a struct name. -/
inductive EIP712FieldType where
  | custom (structName : String)
  | int (size : Nat)
  | uint (size : Nat)
  | address
  | bool
  | string
  | fixedBytes (size : Nat)
  | dynamicBytes
deriving DecidableEq, Repr

/-- `EIP712FieldDefinition` from `src/eip712/types.ts`.  The TypeScript
`arrayLevels` member is optional; an absent member behaves as `[]`
(the codec reads it with `?? []`), so it is modelled as a plain list. -/
structure EIP712FieldDefinition where
  name : String
  type : EIP712FieldType
  arrayLevels : List EIP712ArrayLevel := []
deriving DecidableEq, Repr

/-- The `EIP712_TYPE_VALUE` constant table of `src/eip712/codec.ts`. -/
def EIP712_TYPE_VALUE : EIP712FieldKind → Nat
  | .custom => 0
  | .int => 1
  | .uint => 2
  | .address => 3
  | .bool => 4
  | .string => 5
  | .fixedBytes => 6
  | .dynamicBytes => 7

/-- UTF-8 encoding of one character (the byte expansion performed by
`Buffer.from(s, "utf8")`), as byte values. -/
def utf8EncodeCharBytes (c : Char) : List Nat :=
  let n := c.toNat
  if n < 0x80 then [n]
  else if n < 0x800 then [0xc0 + n / 64, 0x80 + n % 64]
  else if n < 0x10000 then [0xe0 + n / 4096, 0x80 + n / 64 % 64, 0x80 + n % 64]
  else [0xf0 + n / 262144, 0x80 + n / 4096 % 64, 0x80 + n / 64 % 64, 0x80 + n % 64]

/-- The byte content of `Buffer.from(s, "utf8")`. -/
def utf8Bytes (s : String) : List Nat :=
  (s.data.map utf8EncodeCharBytes).flatten

/-- `resolveFieldType` from `src/eip712/codec.ts`: yields the numeric type
code plus the optional type name (custom structs) and optional size byte.
An empty struct name is falsy in TypeScript, hence rejected. -/
def resolveFieldType (type : EIP712FieldType) : Except String (Nat × Option String × Option Nat) :=
  match type with
  | .custom structName =>
      if structName = "" then .error ("Custom field must specify a struct name")
      else .ok (EIP712_TYPE_VALUE .custom, some structName, none)
  | .int size =>
      if size < 1 ∨ size > 32 then .error ("Integer sizes must be between 1 and 32 bytes")
      else .ok (EIP712_TYPE_VALUE .int, none, some size)
  | .uint size =>
      if size < 1 ∨ size > 32 then .error ("Integer sizes must be between 1 and 32 bytes")
      else .ok (EIP712_TYPE_VALUE .uint, none, some size)
  | .fixedBytes size =>
      if size < 1 ∨ size > 32 then .error ("Fixed bytes size must be between 1 and 32")
      else .ok (EIP712_TYPE_VALUE .fixedBytes, none, some size)
  | .dynamicBytes => .ok (EIP712_TYPE_VALUE .dynamicBytes, none, none)
  | .address => .ok (EIP712_TYPE_VALUE .address, none, none)
  | .bool => .ok (EIP712_TYPE_VALUE .bool, none, none)
  | .string => .ok (EIP712_TYPE_VALUE .string, none, none)

/-- `encodeArrayLevels` from `src/eip712/codec.ts`: one count byte, then per
level `[0]` for dynamic or `[1, length]` for fixed with `length ∈ [1,255]`. -/
def encodeArrayLevels (arrayLevels : List EIP712ArrayLevel) : Except String (List Nat) :=
  if arrayLevels.length > 0xff then .error ("Array level count cannot exceed 255")
  else do
    let body ← arrayLevels.mapM (fun level =>
      match level with
      | .dynamic => Except.ok [0]
      | .fixed length =>
          if length ≤ 0 ∨ length > 0xff then
            Except.error ("Fixed array length must be between 1 and 255")
          else Except.ok [1, length])
    .ok (arrayLevels.length :: body.flatten)

/-- `encodeFieldDefinition` from `src/eip712/codec.ts`: descriptor byte,
optional custom type-name block, optional size byte, optional array-level
block, then the length-prefixed field name.  The TypeScript `parts` array is
realised by concatenating the same blocks in the same order. -/
def encodeFieldDefinition (field : EIP712FieldDefinition) : Except String (List Nat) :=
  if field.name = "" then .error ("Field name is required")
  else
    let arrayLevels := field.arrayLevels
    match resolveFieldType field.type with
    | .error e => .error e
    | .ok (typeValue, typeName, typeSize) =>
      let typeDesc :=
        ((typeValue &&& 0x0f) ||| (if arrayLevels.length > 0 then 0x80 else 0)) |||
          (if typeSize.isSome then 0x40 else 0)
      let customBlockE : Except String (List Nat) :=
        match typeName with
        | some tn =>
            let tnBytes := utf8Bytes tn
            if tnBytes.length > 0xff then .error ("Custom type name cannot exceed 255 bytes")
            else .ok (tnBytes.length :: tnBytes)
        | none => .ok []
      match customBlockE with
      | .error e => .error e
      | .ok customBlock =>
        let sizeBlock :=
          match typeSize with
          | some s => [s]
          | none => []
        match (if arrayLevels.length > 0 then encodeArrayLevels arrayLevels else .ok []) with
        | .error e => .error e
        | .ok arrayBlock =>
          let keyBytes := utf8Bytes field.name
          if keyBytes.length = 0 ∨ keyBytes.length > 0xff then
            .error ("Field key name must be between 1 and 255 bytes")
          else
            .ok (typeDesc :: customBlock ++ sizeBlock ++ arrayBlock ++
              keyBytes.length :: keyBytes)

/-- The kind of a field type (which `EIP712_TYPE_VALUE` row applies to it). -/
def fieldKindOf : EIP712FieldType → EIP712FieldKind
  | .custom _ => .custom
  | .int _ => .int
  | .uint _ => .uint
  | .address => .address
  | .bool => .bool
  | .string => .string
  | .fixedBytes _ => .fixedBytes
  | .dynamicBytes => .dynamicBytes

/-- Spec-side description (claim C1): the descriptor byte is the kind code in
bits 0-3, plus bit 6 when a size byte follows and bit 7 when array data
follows. -/
def specDescByte (f : EIP712FieldDefinition) : Nat :=
  EIP712_TYPE_VALUE (fieldKindOf f.type) +
    (if fieldKindOf f.type = .int ∨ fieldKindOf f.type = .uint ∨ fieldKindOf f.type = .fixedBytes
      then 64 else 0) +
    (if f.arrayLevels ≠ [] then 128 else 0)

/-- Spec-side description (claim C1): the custom-kind block is a length byte
plus the UTF-8 struct name, and empty for every other kind. -/
def specCustomBlock : EIP712FieldType → List Nat
  | .custom structName => (utf8Bytes structName).length :: utf8Bytes structName
  | _ => []

/-- Spec-side description (claim C1): the type-size byte appears exactly for
`int`, `uint` and `fixed-bytes`. -/
def specSizeBlock : EIP712FieldType → List Nat
  | .int s => [s]
  | .uint s => [s]
  | .fixedBytes s => [s]
  | _ => []

/-! ## Type-descriptor parsing (`src/eip712/typedData.ts`) -/

/-- A character matched by the regex class `\w` (`[A-Za-z0-9_]`). -/
def isWordChar (c : Char) : Bool :=
  c.isAlpha || c.isDigit || c = '_'

/-- Numeric value of a decimal digit string (the effect of `parseInt(s, 10)`
on a string of digits). -/
def natOfDigits (cs : List Char) : Nat :=
  cs.foldl (fun acc c => 10 * acc + (c.toNat - 48)) 0

/-- One step of the `/(.*)\[([0-9]*)\]$/` loop of `extractArrayLevels`: if the
string ends in `]` preceded by a digit run preceded by `[`, strip that suffix
and report the level (`none` for empty digits, i.e. a dynamic level). -/
def stripArraySuffix (cs : List Char) : Option (List Char × Option Nat) :=
  match cs.reverse with
  | ']' :: rest =>
      let ds := rest.takeWhile Char.isDigit
      match rest.dropWhile Char.isDigit with
      | '[' :: rem =>
          some (rem.reverse, if ds.isEmpty then none else some (natOfDigits ds.reverse))
      | _ => none
  | _ => none

/-- The `while` loop of `extractArrayLevels`, with the string length as fuel
(each iteration strips at least two characters).  The TypeScript `unshift`
prepends each stripped level, which is realised by appending on the way out
of the recursion. -/
def extractArrayLevelsAux : Nat → List Char → List Char × List (Option Nat)
  | 0, cs => (cs, [])
  | fuel + 1, cs =>
      match stripArraySuffix cs with
      | none => (cs, [])
      | some (rem, lvl) =>
          let (base, lvls) := extractArrayLevelsAux fuel rem
          (base, lvls ++ [lvl])

/-- `extractArrayLevels` from `src/eip712/typedData.ts`: repeatedly strip a
trailing `[digits?]` group; the resulting list is outermost-first. -/
def extractArrayLevels (type : String) : String × List (Option Nat) :=
  let (base, lvls) := extractArrayLevelsAux type.data.length type.data
  (String.mk base, lvls)

/-- `extractTypeName` from `src/eip712/typedData.ts`: the match against
`/^(\w+?)(\d*)$/`.  The non-greedy `\w+?` takes the shortest non-empty name
prefix whose remainder is all digits, which is the whole string minus its
longest digit suffix (but always at least one name character); every
character must be a word character, else the match fails. -/
def extractTypeName (type : String) : Except String (String × Option Nat) :=
  let cs := type.data
  if cs.isEmpty then .error ("Invalid type descriptor: " ++ type)
  else
    let k := min (cs.reverse.takeWhile Char.isDigit).length (cs.length - 1)
    let nameChars := cs.take (cs.length - k)
    let digitChars := cs.drop (cs.length - k)
    if cs.all isWordChar then
      .ok (String.mk nameChars,
        if digitChars.isEmpty then none else some (natOfDigits digitChars))
    else .error ("Invalid type descriptor: " ++ type)

/-- The result record of `parseTypeDescriptor`: resolved field type, kind,
optional byte size, optional referenced struct name, and the raw array
levels (`none` = dynamic). -/
structure ParsedDescriptor where
  fieldType : EIP712FieldType
  kind : EIP712FieldKind
  size : Option Nat := none
  structName : Option String := none
  arrayLevels : List (Option Nat)
deriving DecidableEq, Repr

/-- `parseTypeDescriptor` from `src/eip712/typedData.ts`: strip array levels,
split the base type into name and numeric suffix, then resolve by name.
`int`/`uint` demand a size that is a multiple of 8 with `S/8 ∈ [1,32]`
(stored in bytes); `bytes` with a suffix demands `S ∈ [1,32]`; `address`,
`bool` and `string` ignore any suffix; anything else is a custom struct
reference. -/
def parseTypeDescriptor (rawType : String) : Except String ParsedDescriptor :=
  let (baseType, arrayLevels) := extractArrayLevels rawType
  match extractTypeName baseType with
  | .error e => .error e
  | .ok (typeName, typeSize) =>
    if typeName = "int" ∨ typeName = "uint" then
      match typeSize with
      | none => .error (typeName ++ " must specify a size multiple of 8")
      | some s =>
          if s % 8 ≠ 0 then .error (typeName ++ " must specify a size multiple of 8")
          else
            let byteSize := s / 8
            if byteSize < 1 ∨ byteSize > 32 then
              .error (typeName ++ " size must be between 8 and 256 bits")
            else if typeName = "int" then
              .ok ⟨.int byteSize, .int, some byteSize, none, arrayLevels⟩
            else
              .ok ⟨.uint byteSize, .uint, some byteSize, none, arrayLevels⟩
    else if typeName = "bytes" then
      match typeSize with
      | some s =>
          if s < 1 ∨ s > 32 then .error ("bytesN size must be between 1 and 32")
          else .ok ⟨.fixedBytes s, .fixedBytes, some s, none, arrayLevels⟩
      | none => .ok ⟨.dynamicBytes, .dynamicBytes, none, none, arrayLevels⟩
    else if typeName = "address" then
      .ok ⟨.address, .address, none, none, arrayLevels⟩
    else if typeName = "bool" then
      .ok ⟨.bool, .bool, none, none, arrayLevels⟩
    else if typeName = "string" then
      .ok ⟨.string, .string, none, none, arrayLevels⟩
    else
      .ok ⟨.custom typeName, .custom, none, some typeName, arrayLevels⟩

/-! ## Struct definition building (`buildDefinitions`) -/

/-- One entry of the caller-supplied `types` table: `{ name, type }`. -/
structure TDField where
  name : String
  type : String
deriving DecidableEq, Repr

/-- `StructMetaField` from `src/eip712/typedData.ts`. -/
structure StructMetaField where
  name : String
  kind : EIP712FieldKind
  size : Option Nat := none
  structName : Option String := none
  arrayLevels : List (Option Nat)
deriving DecidableEq, Repr

/-- `PreparedDefinition` from `src/eip712/typedData.ts`. -/
structure PreparedDefinition where
  name : String
  fields : List EIP712FieldDefinition
deriving DecidableEq, Repr

/-- The ICU root collation (DUCET) order of the 33 ASCII punctuation and
symbol characters, as code points: space, underscore, hyphen, comma,
semicolon, colon, exclamation, question, period, apostrophe, quote, the
paired brackets, at, asterisk, slash, backslash, ampersand, hash, percent,
backquote, caret, plus, the comparison signs, vertical bar, tilde, dollar.
In the root collation all of these sort before every digit and letter. -/
def asciiSymbolOrder : List Nat :=
  [0x20, 0x5f, 0x2d, 0x2c, 0x3b, 0x3a, 0x21, 0x3f, 0x2e, 0x27, 0x22,
   0x28, 0x29, 0x5b, 0x5d, 0x7b, 0x7d, 0x40, 0x2a, 0x2f, 0x5c, 0x26,
   0x23, 0x25, 0x60, 0x5e, 0x2b, 0x3c, 0x3d, 0x3e, 0x7c, 0x7e, 0x24]

/-- Position of the first occurrence of `n` in `l` (list length if absent);
used to read a rank off `asciiSymbolOrder`. -/
def symRank (n : Nat) : List Nat → Nat
  | [] => 0
  | m :: ms => if n = m then 0 else 1 + symRank n ms

/-- Primary collation weight of a character, following the ICU root
collation (DUCET) on printable ASCII: punctuation and symbols, in the
order of `asciiSymbolOrder`, sort before digits; digits sort before
letters; letters compare case-insensitively (uppercase folds onto its
lowercase counterpart, which the case weight below disambiguates).
Characters outside printable ASCII are placed above all of these, by code
point; every weight is positive, so the `0` separator in `collationKey`
stays below all primary weights. -/
def primWeight (c : Char) : Nat :=
  if 48 ≤ c.toNat ∧ c.toNat ≤ 57 then 1000 + c.toNat
  else if 97 ≤ c.toNat ∧ c.toNat ≤ 122 then 2000 + c.toNat
  else if 65 ≤ c.toNat ∧ c.toNat ≤ 90 then 2032 + c.toNat
  else if c.toNat ∈ asciiSymbolOrder then 1 + symRank c.toNat asciiSymbolOrder
  else 3000 + c.toNat

/-- Case (tertiary) collation weight: 1 for ASCII uppercase, else 0 (in
DUCET, lowercase letters carry tertiary weight 0x0002 and uppercase
0x0008, so lowercase sorts first on primary ties). -/
def caseWeight (c : Char) : Nat :=
  if 65 ≤ c.toNat ∧ c.toNat ≤ 90 then 1 else 0

/-- Model of the JavaScript `String.prototype.localeCompare` sort key under
the default locale (ICU root collation), faithful on strings of printable
ASCII: a primary pass compares the root-collation primary weights
(symbols, then digits, then case-folded letters), and only as a tie break
a case pass puts lowercase before uppercase.  Both passes are packed into
one list separated by `0`, which lies strictly below every primary weight,
so that lexicographic comparison of keys performs the full primary pass
first. -/
def collationKey (s : String) : List Nat :=
  s.data.map primWeight ++ 0 :: s.data.map caseWeight

/-- Strict lexicographic comparison of weight lists. -/
def weightsLt : List Nat → List Nat → Bool
  | [], [] => false
  | [], _ :: _ => true
  | _ :: _, [] => false
  | a :: as, b :: bs => if a < b then true else if b < a then false else weightsLt as bs

/-- `a.localeCompare(b) < 0` in the model. -/
def localeLtB (a b : String) : Bool :=
  weightsLt (collationKey a) (collationKey b)

/-- `a.localeCompare(b) ≤ 0` in the model (the ascending-sort relation used
by `Array.prototype.sort` with the `localeCompare` comparator). -/
def localeLeB (a b : String) : Bool :=
  !localeLtB b a

/-- Spec-side (claim C2): strict byte/codepoint lexicographic order on
strings, the ordering named by the claim. -/
def specCodepointLt (a b : String) : Bool :=
  weightsLt (a.data.map Char.toNat) (b.data.map Char.toNat)

/-- The sort relation of `buildDefinitions` on `Object.entries(types)`
pairs: ascending by `localeCompare` on the struct name. -/
def entryLe (p q : String × List TDField) : Prop :=
  localeLeB p.1 q.1 = true

instance : DecidableRel entryLe := fun p q => by
  unfold entryLe; infer_instance

/-- Parse one struct's fields, producing the wire definition and the
metadata entry for each field (the two `push` calls of the TypeScript
loop). -/
def buildEntry (entry : String × List TDField) :
    Except String (String × List (EIP712FieldDefinition × StructMetaField)) :=
  match entry.2.mapM (fun field =>
      (match parseTypeDescriptor field.type with
      | .error e => .error e
      | .ok parsed =>
          Except.ok
            ({ name := field.name
               type := parsed.fieldType
               arrayLevels := parsed.arrayLevels.map (fun level =>
                 match level with
                 | none => EIP712ArrayLevel.dynamic
                 | some n => EIP712ArrayLevel.fixed n) },
             { name := field.name
               kind := parsed.kind
               size := parsed.size
               structName := parsed.structName
               arrayLevels := parsed.arrayLevels }) :
        Except String (EIP712FieldDefinition × StructMetaField))) with
  | .error e => .error e
  | .ok parsedFields => .ok (entry.1, parsedFields)

/-- `buildDefinitions` from `src/eip712/typedData.ts`: sort the entries of
the type table by `localeCompare` on the struct name, then parse each
struct's fields, yielding the prepared definitions and the meta map.
`Object.entries` iteration order is modelled by the input association list;
`Array.prototype.sort` (a stable sort under a consistent comparator) is
modelled by insertion sort. -/
def buildDefinitions (types : List (String × List TDField)) :
    Except String (List PreparedDefinition × List (String × List StructMetaField)) :=
  match (List.insertionSort entryLe types).mapM buildEntry with
  | .error e => .error e
  | .ok processed =>
      .ok (processed.map (fun e => ⟨e.1, e.2.map Prod.fst⟩),
           processed.map (fun e => (e.1, e.2.map Prod.snd)))

/-! ## Runtime values and the value encoder (`src/eip712/typedData.ts`) -/

/-- JavaScript runtime values as they reach the value encoder.  `vNum`
carries the integral JavaScript numbers (non-integral numbers cannot be
converted by `BigInt` and are outside the model); an absent property
(`undefined`) is modelled by `Option` at the lookup sites. -/
inductive JsValue where
  | vNull
  | vBool (b : Bool)
  | vNum (n : Int)
  | vBigInt (n : Int)
  | vStr (s : String)
  | vArr (elems : List JsValue)
  | vObj (fields : List (String × JsValue))
deriving Repr

/-- Hexadecimal value of a character, `none` for a non-hex character. -/
def hexDigitVal (c : Char) : Option Nat :=
  if c.isDigit then some (c.toNat - 48)
  else if 97 ≤ c.toNat ∧ c.toNat ≤ 102 then some (c.toNat - 87)
  else if 65 ≤ c.toNat ∧ c.toNat ≤ 70 then some (c.toNat - 55)
  else none

/-- The byte content of `Buffer.from(s, "hex")`: decode hex-digit pairs,
stopping at the first character that is not a hexadecimal digit (Node
semantics). -/
def decodeHexPairs : List Char → List Nat
  | c1 :: c2 :: rest =>
      match hexDigitVal c1, hexDigitVal c2 with
      | some hi, some lo => (16 * hi + lo) :: decodeHexPairs rest
      | _, _ => []
  | _ => []

/-- `padHexString` from `src/eip712/typedData.ts` on the character level:
prepend `'0'` when the length is odd. -/
def padHexChars (cs : List Char) : List Char :=
  if cs.length % 2 = 1 then '0' :: cs else cs

/-- `str.startsWith("0x")`. -/
def jsStartsWith0x (s : String) : Bool :=
  match s.data with
  | '0' :: 'x' :: _ => true
  | _ => false

/-- The characters of `str` after stripping a leading `"0x"` if present. -/
def stripHexMarker (s : String) : List Char :=
  match s.data with
  | '0' :: 'x' :: rest => rest
  | cs => cs

/-- `hexBuffer` from `src/eip712/typedData.ts`: empty for the empty string,
else strip a `0x` marker, pad to even length and hex-decode. -/
def hexBuffer (s : String) : List Nat :=
  if s = "" then []
  else decodeHexPairs (padHexChars (stripHexMarker s))

/-- Base-16 digits of `n`, most significant first (the digit string produced
by `BigInt.prototype.toString(16)` for non-negative values); the first
argument is fuel, always called with `fuel = n`. -/
def natToHexDigitsAux : Nat → Nat → List Nat
  | 0, n => [n % 16]
  | fuel + 1, n => if n < 16 then [n] else natToHexDigitsAux fuel (n / 16) ++ [n % 16]

/-- The hex-digit list of `n` (minimal, `[0]` for zero). -/
def natToHexDigits (n : Nat) : List Nat :=
  natToHexDigitsAux n n

/-- `padHexString` on hex-digit values. -/
def padHexDigits (ds : List Nat) : List Nat :=
  if ds.length % 2 = 1 then 0 :: ds else ds

/-- `Buffer.from(hex, "hex")` on an already-valid digit list: fold pairs of
hex digits into bytes. -/
def hexPairsToBytes : List Nat → List Nat
  | d1 :: d2 :: rest => (16 * d1 + d2) :: hexPairsToBytes rest
  | _ => []

/-- Model of the JavaScript `BigInt(string)` conversion restricted to the
decimal shapes that can reach it in `encodeInteger` (the `0x` form is
diverted to `hexBuffer` beforehand): an optional minus sign followed by a
digit run; the empty string converts to `0`; anything else throws. -/
def jsBigIntOfString (s : String) : Option Int :=
  match s.data with
  | [] => some 0
  | '-' :: rest =>
      if rest ≠ [] ∧ rest.all Char.isDigit then some (-(natOfDigits rest : Int)) else none
  | cs => if cs.all Char.isDigit then some ((natOfDigits cs : Int)) else none

/-- `Number.isSafeInteger` for an integral number. -/
def isSafeInteger (n : Int) : Bool :=
  n.natAbs ≤ 2 ^ 53 - 1

/-- The tail of `encodeInteger`: wrap a negative value to its residue modulo
`2^sizeInBits` (JavaScript `%` on bigints is the truncated remainder,
`Int.tmod`), then emit the padded minimal hex representation as bytes. -/
def encodeIntegerTail (numericValue : Int) (sizeInBits : Nat) : List Nat :=
  let wrapped : Int :=
    if numericValue < 0 then
      let modulus : Int := 2 ^ sizeInBits
      (modulus + numericValue.tmod modulus).tmod modulus
    else numericValue
  hexPairsToBytes (padHexDigits (natToHexDigits wrapped.toNat))

/-- `encodeInteger` from `src/eip712/typedData.ts`.  `value ?? "0"` turns a
missing or null value into the string `"0"`; a `0x`-prefixed string is
hex-decoded verbatim; other strings go through `BigInt`; numbers must be
safe integers; booleans become 0/1. -/
def encodeInteger (value : Option JsValue) (sizeInBits : Nat) : Except String (List Nat) :=
  let failSafeValue : JsValue :=
    match value with
    | none => .vStr "0"
    | some .vNull => .vStr "0"
    | some v => v
  match failSafeValue with
  | .vStr s =>
      if jsStartsWith0x s then .ok (hexBuffer s)
      else
        match jsBigIntOfString s with
        | none => .error ("Cannot convert string to a BigInt")
        | some n => .ok (encodeIntegerTail n sizeInBits)
  | .vNum n =>
      if isSafeInteger n then .ok (encodeIntegerTail n sizeInBits)
      else .error ("Unsafe integer number; use string or bigint")
  | .vBigInt n => .ok (encodeIntegerTail n sizeInBits)
  | .vBool b => .ok (encodeIntegerTail (if b then 1 else 0) sizeInBits)
  | _ => .error ("Integer value must be a number, bigint, boolean or string")

/-- `encodeFixedHex` from `src/eip712/typedData.ts`: null-ish is empty,
non-strings are an error, and the hex decoding is sliced to at most
`byteLength` bytes (no padding). -/
def encodeFixedHex (value : Option JsValue) (byteLength : Nat) : Except String (List Nat) :=
  match value with
  | none => .ok []
  | some .vNull => .ok []
  | some (.vStr s) => .ok ((hexBuffer s).take byteLength)
  | some _ => .error ("Expected hex string value")

/-- `encodeDynamicHex` from `src/eip712/typedData.ts`. -/
def encodeDynamicHex (value : Option JsValue) : Except String (List Nat) :=
  match value with
  | none => .ok []
  | some .vNull => .ok []
  | some (.vStr s) => .ok (hexBuffer s)
  | some _ => .error ("Dynamic bytes must be a hex string")

/-- `encodeBoolean` from `src/eip712/typedData.ts`: the integer path over a
256-bit field. -/
def encodeBoolean (value : Option JsValue) : Except String (List Nat) :=
  encodeInteger value 256

/-- `encodePrimitiveValue` from `src/eip712/typedData.ts`. -/
def encodePrimitiveValue (kind : EIP712FieldKind) (size : Option Nat) (value : JsValue) :
    Except String (List Nat) :=
  match kind with
  | .int =>
      match size with
      | none => .error ("int requires a size")
      | some s => encodeInteger (some value) (s * 8)
  | .uint =>
      match size with
      | none => .error ("uint requires a size")
      | some s => encodeInteger (some value) (s * 8)
  | .address => encodeFixedHex (some value) 20
  | .bool => encodeBoolean (some value)
  | .string =>
      match value with
      | .vNull => .ok []
      | .vStr s => .ok (utf8Bytes s)
      | _ => .error ("String value must be a string")
  | .fixedBytes =>
      match size with
      | none => .error ("fixed-bytes requires a size")
      | some s => encodeFixedHex (some value) s
  | .dynamicBytes => encodeDynamicHex (some value)
  | .custom => .error ("Unsupported primitive type: custom")

/-! ## Struct implementation building (`src/eip712/typedData.ts`) -/

/-- `EIP712ImplementationEntry` from `src/eip712/types.ts`. -/
inductive EIP712ImplementationEntry where
  | root (name : String)
  | array (size : Nat)
  | field (value : List Nat)
deriving DecidableEq, Repr

/-- First-match association-list lookup, modelling access to a JavaScript
record built with distinct keys. -/
def assocLookup {α : Type} : List (String × α) → String → Option α
  | [], _ => none
  | (k, v) :: rest, n => if k = n then some v else assocLookup rest n

/-- A canonical JavaScript array index: `"0"`, or digits without a leading
zero (any other string is not an own property of an array). -/
def jsArrayIndex (s : String) : Option Nat :=
  match s.data with
  | [] => none
  | ['0'] => some 0
  | c :: cs =>
      if c ≠ '0' ∧ (c :: cs).all Char.isDigit then some (natOfDigits (c :: cs)) else none

/-- JavaScript property access `data[name]` for the value shapes that can
reach `encodeStruct` (plain objects and arrays); `none` models `undefined`.
Inherited prototype properties (such as `length`) are outside the model. -/
def jsGet : JsValue → String → Option JsValue
  | .vObj fields, n => assocLookup fields n
  | .vArr elems, n =>
      (match jsArrayIndex n with
       | some i => elems.get? i
       | none => none)
  | _, _ => none

theorem assocLookup_sizeOf_lt {α : Type} [SizeOf α] :
    ∀ (l : List (String × α)) (n : String) (v : α),
      assocLookup l n = some v → sizeOf v < sizeOf l := by
  intro l
  induction l with
  | nil => intro n v h; exact absurd h (by simp [assocLookup])
  | cons p rest ih =>
    intro n v h
    obtain ⟨k, w⟩ := p
    unfold assocLookup at h
    split at h
    · rw [Option.some.injEq] at h
      subst h
      simp
      omega
    · have := ih n v h
      simp
      omega

theorem jsGet_sizeOf_lt : ∀ (data : JsValue) (n : String) (v : JsValue),
    jsGet data n = some v → sizeOf v < sizeOf data := by
  intro data n v h
  cases data with
  | vObj fields =>
    simp only [jsGet] at h
    have := assocLookup_sizeOf_lt fields n v h
    simp only [JsValue.vObj.sizeOf_spec]
    omega
  | vArr elems =>
    simp only [jsGet] at h
    split at h
    · have hm : v ∈ elems := List.get?_mem h
      have := List.sizeOf_lt_of_mem hm
      simp only [JsValue.vArr.sizeOf_spec]
      omega
    · exact absurd h (by simp)
  | vNull => exact absurd h (by simp [jsGet])
  | vBool b => exact absurd h (by simp [jsGet])
  | vNum m => exact absurd h (by simp [jsGet])
  | vBigInt m => exact absurd h (by simp [jsGet])
  | vStr s => exact absurd h (by simp [jsGet])

mutual

/-- `encodeStruct` from `src/eip712/typedData.ts`: look the struct up in the
meta map and encode its declared fields, in order, against `data`. -/
def encodeStruct (metaMap : List (String × List StructMetaField)) (structName : String)
    (data : JsValue) : Except String (List EIP712ImplementationEntry) :=
  match hm : assocLookup metaMap structName with
  | none => .error ("Unknown struct " ++ structName)
  | some metaFields => encodeStructFields metaMap structName metaFields data
termination_by (2 * sizeOf data, 1, 0)
decreasing_by
  all_goals simp_wf
  all_goals first
    | (apply Prod.Lex.left
       omega)
    | (apply Prod.Lex.left
       have h1 := jsGet_sizeOf_lt _ _ _ hv
       omega)
    | (apply Prod.Lex.right
       first
         | (apply Prod.Lex.left
            omega)
         | (apply Prod.Lex.right
            omega))

/-- The `forEach` loop of `encodeStruct`: for each declared field, the key
must be present in the data object (`undefined` is an error); the found
value — possibly `null`, `0`, `false` or `""` — is handed to
`encodeField`. -/
def encodeStructFields (metaMap : List (String × List StructMetaField)) (structName : String)
    (fields : List StructMetaField) (data : JsValue) :
    Except String (List EIP712ImplementationEntry) :=
  match fields with
  | [] => .ok []
  | mf :: rest =>
    match hv : jsGet data mf.name with
    | none => .error ("Missing value for field " ++ mf.name ++ " in " ++ structName)
    | some value =>
      match encodeField metaMap mf value with
      | .error e => .error e
      | .ok entries =>
        match encodeStructFields metaMap structName rest data with
        | .error e => .error e
        | .ok entriesRest => .ok (entries ++ entriesRest)
termination_by (2 * sizeOf data, 0, sizeOf fields)
decreasing_by
  all_goals simp_wf
  all_goals first
    | (apply Prod.Lex.left
       omega)
    | (apply Prod.Lex.left
       have h1 := jsGet_sizeOf_lt _ _ _ hv
       omega)
    | (apply Prod.Lex.right
       first
         | (apply Prod.Lex.left
            omega)
         | (apply Prod.Lex.right
            omega))

/-- `encodeField` from `src/eip712/typedData.ts`: consume the outermost
array level if any (a `fixed(n)` level demands length exactly `n`, a dynamic
level accepts any length; one `array(length)` entry is emitted, then each
element is encoded against the remaining levels); custom fields recurse into
the referenced struct; primitives produce one `field` entry. -/
def encodeField (metaMap : List (String × List StructMetaField)) (field : StructMetaField)
    (value : JsValue) : Except String (List EIP712ImplementationEntry) :=
  match field.arrayLevels with
  | currentLevel :: rest =>
    (match value with
     | .vArr elems =>
        (match currentLevel with
         | some n =>
            if elems.length ≠ n then
              .error ("Array " ++ field.name ++ " expects a different length")
            else
              match encodeFieldElems metaMap { field with arrayLevels := rest } elems with
              | .error e => .error e
              | .ok es => .ok (.array elems.length :: es)
         | none =>
            match encodeFieldElems metaMap { field with arrayLevels := rest } elems with
            | .error e => .error e
            | .ok es => .ok (.array elems.length :: es))
     | _ => .error ("Field " ++ field.name ++ " expects an array"))
  | [] =>
    if field.kind = .custom then
      match field.structName with
      | none => .error ("Field " ++ field.name ++ " expected struct")
      | some sn =>
        if sn = "" then .error ("Field " ++ field.name ++ " expected struct")
        else
          match value with
          | .vObj fields => encodeStruct metaMap sn (.vObj fields)
          | .vArr elems => encodeStruct metaMap sn (.vArr elems)
          | _ => .error ("Field " ++ field.name ++ " expected struct " ++ sn)
    else
      match encodePrimitiveValue field.kind field.size value with
      | .error e => .error e
      | .ok buf => .ok [.field buf]
termination_by (2 * sizeOf value, 2, 0)
decreasing_by
  all_goals simp_wf
  all_goals first
    | (apply Prod.Lex.left
       omega)
    | (apply Prod.Lex.left
       have h1 := jsGet_sizeOf_lt _ _ _ hv
       omega)
    | (apply Prod.Lex.right
       first
         | (apply Prod.Lex.left
            omega)
         | (apply Prod.Lex.right
            omega))

/-- The `value.forEach` loop of the array branch of `encodeField`. -/
def encodeFieldElems (metaMap : List (String × List StructMetaField)) (field : StructMetaField)
    (elems : List JsValue) : Except String (List EIP712ImplementationEntry) :=
  match elems with
  | [] => .ok []
  | x :: rest =>
    match encodeField metaMap field x with
    | .error e => .error e
    | .ok es =>
      match encodeFieldElems metaMap field rest with
      | .error e => .error e
      | .ok esRest => .ok (es ++ esRest)
termination_by (2 * sizeOf elems, 0, 0)
decreasing_by
  all_goals simp_wf
  all_goals first
    | (apply Prod.Lex.left
       omega)
    | (apply Prod.Lex.left
       have h1 := jsGet_sizeOf_lt _ _ _ hv
       omega)
    | (apply Prod.Lex.right
       first
         | (apply Prod.Lex.left
            omega)
         | (apply Prod.Lex.right
            omega))

end

/-- `EIP712TypedData` from `src/eip712/typedData.ts` (`domain` and `message`
are the top-level data objects). -/
structure EIP712TypedData where
  types : List (String × List TDField)
  primaryType : String
  domain : List (String × JsValue)
  message : List (String × JsValue)

/-- The `EIP712_DOMAIN` constant. -/
def EIP712_DOMAIN : String := "EIP712Domain"

/-- The `CIP23_DOMAIN` constant. -/
def CIP23_DOMAIN : String := "CIP23Domain"

/-- `buildImplementation` from `src/eip712/typedData.ts`: fail on an
ambiguous domain; emit root-plus-fields for the (unique) domain struct if
one exists; then check the primary type and emit its root and fields. -/
def buildImplementation (metaMap : List (String × List StructMetaField))
    (typedData : EIP712TypedData) : Except String (List EIP712ImplementationEntry) :=
  if (assocLookup metaMap EIP712_DOMAIN).isSome ∧ (assocLookup metaMap CIP23_DOMAIN).isSome then
    .error ("Ambiguous domain: both EIP712Domain and CIP23Domain are present")
  else
    match ((match (if (assocLookup metaMap EIP712_DOMAIN).isSome then some EIP712_DOMAIN
      else if (assocLookup metaMap CIP23_DOMAIN).isSome then some CIP23_DOMAIN
      else none) with
      | some dr =>
          (match encodeStruct metaMap dr (.vObj typedData.domain) with
           | .error e => .error e
           | .ok es => .ok (EIP712ImplementationEntry.root dr :: es))
      | none => .ok []) : Except String (List EIP712ImplementationEntry)) with
    | .error e => .error e
    | .ok domainEntries =>
      if (assocLookup metaMap typedData.primaryType).isNone then
        .error ("Unknown primaryType " ++ typedData.primaryType)
      else
        match encodeStruct metaMap typedData.primaryType (.vObj typedData.message) with
        | .error e => .error e
        | .ok messageEntries =>
            .ok (domainEntries ++ .root typedData.primaryType :: messageEntries)

/-- `prepareEIP712Payload` from `src/eip712/typedData.ts`. -/
def prepareEIP712Payload (typedData : EIP712TypedData) :
    Except String (List PreparedDefinition × List EIP712ImplementationEntry) :=
  match buildDefinitions typedData.types with
  | .error e => .error e
  | .ok (definitions, metaMap) =>
      match buildImplementation metaMap typedData with
      | .error e => .error e
      | .ok implementation => .ok (definitions, implementation)

/-! ## Chunked transport (`src/eip712/transport.ts`) -/

/-- The `EIP712_P1.complete` marker (`0x00`). -/
def EIP712_P1_complete : Nat := 0x00

/-- The P1 marker `0x01` flagging a chunk with more data to follow. -/
def EIP712_P1_incomplete : Nat := 0x01

/-- Modelled from the spec: `splitMessage` (defined in `src/utils.ts`, which
is not among the provided sources) splits a payload into consecutive chunks
of at most `chunkSize` bytes, each chunk full except possibly the last
(§4.6/§8: a 600-byte payload at 255 yields chunks of 255, 255 and 90).  The
first argument is fuel, always instantiated with the payload length. -/
def splitMessageAux : Nat → List Nat → Nat → List (List Nat)
  | 0, msg, _ => [msg]
  | fuel + 1, msg, chunkSize =>
      if msg.length ≤ chunkSize then [msg]
      else msg.take chunkSize :: splitMessageAux fuel (msg.drop chunkSize) chunkSize

/-- Modelled from the spec: greedy chunking of `msg` at `chunkSize`. -/
def splitMessage (msg : List Nat) (chunkSize : Nat) : List (List Nat) :=
  splitMessageAux msg.length msg chunkSize

/-- One APDU command as handed to `transport.send`. -/
structure APDUCommand where
  cla : Nat
  ins : Nat
  p1 : Nat
  p2 : Nat
  payload : List Nat
deriving DecidableEq, Repr

/-- The `for` loop of `sendEIP712Payload`: every chunk except the last is
marked incomplete (`0x01`), the last is marked complete (`0x00`). -/
def chunkFrames (cla ins p2 : Nat) : List (List Nat) → List APDUCommand
  | [] => []
  | [chunk] => [⟨cla, ins, EIP712_P1_complete, p2, chunk⟩]
  | chunk :: rest => ⟨cla, ins, EIP712_P1_incomplete, p2, chunk⟩ :: chunkFrames cla ins p2 rest

/-- `sendEIP712Payload` from `src/eip712/transport.ts`, as the pure sequence
of APDU commands it issues: an empty payload is sent as one zero-length
complete frame; otherwise the payload is split into 255-byte chunks and
streamed with incomplete/complete markers. -/
def sendEIP712Payload (cla ins p2 : Nat) (payload : List Nat) : List APDUCommand :=
  if payload.length = 0 then [⟨cla, ins, EIP712_P1_complete, p2, payload⟩]
  else chunkFrames cla ins p2 (splitMessage payload 0xff)

/-! ## Claims about the field-definition codec and the definition builder -/

/-- The spec-side descriptor byte has the kind code in bits 0-3, bit 6 set
exactly for the sized kinds and bit 7 set exactly when array levels exist. -/
theorem specDescByte_bits (f : EIP712FieldDefinition) :
    specDescByte f % 16 = EIP712_TYPE_VALUE (fieldKindOf f.type) ∧
    ((specDescByte f).testBit 6 ↔
      (fieldKindOf f.type = .int ∨ fieldKindOf f.type = .uint ∨
        fieldKindOf f.type = .fixedBytes)) ∧
    ((specDescByte f).testBit 7 ↔ f.arrayLevels ≠ []) := by
  obtain ⟨name, type, lvls⟩ := f
  by_cases hl : lvls = [] <;>
    cases type <;>
      simp [specDescByte, fieldKindOf, EIP712_TYPE_VALUE, hl] <;> decide

/-- Claim C1: every field definition accepted by `encodeFieldDefinition`
starts with a descriptor byte whose bits 0-3 are the numeric kind code, whose
bit 6 is set iff a type-size byte follows (`int`/`uint`/`fixed-bytes`) and
whose bit 7 is set iff array-level data follows; the remaining bytes are the
custom-name block, the size byte, the array-level block, then one length byte
in `[1,255]` plus the UTF-8 field name. -/
theorem c1_encodeFieldDefinition_format (f : EIP712FieldDefinition) (out : List Nat)
    (h : encodeFieldDefinition f = .ok out) :
    ∃ arrBlock,
      (f.arrayLevels = [] → arrBlock = []) ∧
      (f.arrayLevels ≠ [] → encodeArrayLevels f.arrayLevels = .ok arrBlock) ∧
      out = specDescByte f :: specCustomBlock f.type ++ specSizeBlock f.type ++ arrBlock ++
          (utf8Bytes f.name).length :: utf8Bytes f.name ∧
      1 ≤ (utf8Bytes f.name).length ∧ (utf8Bytes f.name).length ≤ 255 ∧
      specDescByte f % 16 = EIP712_TYPE_VALUE (fieldKindOf f.type) ∧
      ((specDescByte f).testBit 6 ↔
        (fieldKindOf f.type = .int ∨ fieldKindOf f.type = .uint ∨
          fieldKindOf f.type = .fixedBytes)) ∧
      ((specDescByte f).testBit 7 ↔ f.arrayLevels ≠ []) := by
  have hbits := specDescByte_bits f
  obtain ⟨name, type, lvls⟩ := f
  dsimp only at hbits ⊢
  by_cases hname : name = ""
  · rw [encodeFieldDefinition, if_pos hname] at h; exact absurd h (by simp)
  by_cases hl : lvls = []
  · subst hl
    cases type with
    | custom sn =>
      by_cases hsn : sn = ""
      · simp [encodeFieldDefinition, resolveFieldType, hname, hsn] at h
      by_cases htn : 255 < (utf8Bytes sn).length
      · simp [encodeFieldDefinition, resolveFieldType, hname, hsn, htn] at h
      simp only [encodeFieldDefinition, resolveFieldType, if_neg hname, gt_iff_lt,
        Nat.lt_one_iff, if_neg hsn, if_neg htn, List.length_nil, Nat.lt_irrefl, if_false, List.length_eq_zero, Option.isSome_some,
        Option.isSome_none, Bool.false_eq_true] at h
      split at h
      · exact absurd h (by simp)
      rename_i hkey
      rw [Except.ok.injEq] at h
      have hk1 : 1 ≤ (utf8Bytes name).length := by
        rcases Nat.eq_zero_or_pos (utf8Bytes name).length with h0 | h0
        · exact absurd (List.length_eq_zero.mp h0) (not_or.mp hkey).1
        · exact h0
      have hk2 : (utf8Bytes name).length ≤ 255 := by
        have h255 := (not_or.mp hkey).2
        omega
      refine ⟨[], fun _ => rfl, fun hc => absurd rfl hc, ?_, hk1, hk2,
        hbits.1, hbits.2.1, hbits.2.2⟩
      rw [← h]
      simp [specDescByte, specCustomBlock, specSizeBlock, fieldKindOf, EIP712_TYPE_VALUE] <;> decide
    | int s =>
      by_cases hsz : s = 0 ∨ 32 < s
      · simp [encodeFieldDefinition, resolveFieldType, hname, hsz] at h
      simp only [encodeFieldDefinition, resolveFieldType, if_neg hname, gt_iff_lt,
        Nat.lt_one_iff, if_neg hsz, List.length_nil, Nat.lt_irrefl, if_false, List.length_eq_zero, Option.isSome_some,
        Option.isSome_none, Bool.false_eq_true] at h
      split at h
      · exact absurd h (by simp)
      rename_i hkey
      rw [Except.ok.injEq] at h
      have hk1 : 1 ≤ (utf8Bytes name).length := by
        rcases Nat.eq_zero_or_pos (utf8Bytes name).length with h0 | h0
        · exact absurd (List.length_eq_zero.mp h0) (not_or.mp hkey).1
        · exact h0
      have hk2 : (utf8Bytes name).length ≤ 255 := by
        have h255 := (not_or.mp hkey).2
        omega
      refine ⟨[], fun _ => rfl, fun hc => absurd rfl hc, ?_, hk1, hk2,
        hbits.1, hbits.2.1, hbits.2.2⟩
      rw [← h]
      simp [specDescByte, specCustomBlock, specSizeBlock, fieldKindOf, EIP712_TYPE_VALUE] <;> decide
    | uint s =>
      by_cases hsz : s = 0 ∨ 32 < s
      · simp [encodeFieldDefinition, resolveFieldType, hname, hsz] at h
      simp only [encodeFieldDefinition, resolveFieldType, if_neg hname, gt_iff_lt,
        Nat.lt_one_iff, if_neg hsz, List.length_nil, Nat.lt_irrefl, if_false, List.length_eq_zero, Option.isSome_some,
        Option.isSome_none, Bool.false_eq_true] at h
      split at h
      · exact absurd h (by simp)
      rename_i hkey
      rw [Except.ok.injEq] at h
      have hk1 : 1 ≤ (utf8Bytes name).length := by
        rcases Nat.eq_zero_or_pos (utf8Bytes name).length with h0 | h0
        · exact absurd (List.length_eq_zero.mp h0) (not_or.mp hkey).1
        · exact h0
      have hk2 : (utf8Bytes name).length ≤ 255 := by
        have h255 := (not_or.mp hkey).2
        omega
      refine ⟨[], fun _ => rfl, fun hc => absurd rfl hc, ?_, hk1, hk2,
        hbits.1, hbits.2.1, hbits.2.2⟩
      rw [← h]
      simp [specDescByte, specCustomBlock, specSizeBlock, fieldKindOf, EIP712_TYPE_VALUE] <;> decide
    | address =>
      simp only [encodeFieldDefinition, resolveFieldType, if_neg hname, gt_iff_lt,
        Nat.lt_one_iff, List.length_nil, Nat.lt_irrefl, if_false, List.length_eq_zero, Option.isSome_some,
        Option.isSome_none, Bool.false_eq_true] at h
      split at h
      · exact absurd h (by simp)
      rename_i hkey
      rw [Except.ok.injEq] at h
      have hk1 : 1 ≤ (utf8Bytes name).length := by
        rcases Nat.eq_zero_or_pos (utf8Bytes name).length with h0 | h0
        · exact absurd (List.length_eq_zero.mp h0) (not_or.mp hkey).1
        · exact h0
      have hk2 : (utf8Bytes name).length ≤ 255 := by
        have h255 := (not_or.mp hkey).2
        omega
      refine ⟨[], fun _ => rfl, fun hc => absurd rfl hc, ?_, hk1, hk2,
        hbits.1, hbits.2.1, hbits.2.2⟩
      rw [← h]
      simp [specDescByte, specCustomBlock, specSizeBlock, fieldKindOf, EIP712_TYPE_VALUE] <;> decide
    | bool =>
      simp only [encodeFieldDefinition, resolveFieldType, if_neg hname, gt_iff_lt,
        Nat.lt_one_iff, List.length_nil, Nat.lt_irrefl, if_false, List.length_eq_zero, Option.isSome_some,
        Option.isSome_none, Bool.false_eq_true] at h
      split at h
      · exact absurd h (by simp)
      rename_i hkey
      rw [Except.ok.injEq] at h
      have hk1 : 1 ≤ (utf8Bytes name).length := by
        rcases Nat.eq_zero_or_pos (utf8Bytes name).length with h0 | h0
        · exact absurd (List.length_eq_zero.mp h0) (not_or.mp hkey).1
        · exact h0
      have hk2 : (utf8Bytes name).length ≤ 255 := by
        have h255 := (not_or.mp hkey).2
        omega
      refine ⟨[], fun _ => rfl, fun hc => absurd rfl hc, ?_, hk1, hk2,
        hbits.1, hbits.2.1, hbits.2.2⟩
      rw [← h]
      simp [specDescByte, specCustomBlock, specSizeBlock, fieldKindOf, EIP712_TYPE_VALUE] <;> decide
    | string =>
      simp only [encodeFieldDefinition, resolveFieldType, if_neg hname, gt_iff_lt,
        Nat.lt_one_iff, List.length_nil, Nat.lt_irrefl, if_false, List.length_eq_zero, Option.isSome_some,
        Option.isSome_none, Bool.false_eq_true] at h
      split at h
      · exact absurd h (by simp)
      rename_i hkey
      rw [Except.ok.injEq] at h
      have hk1 : 1 ≤ (utf8Bytes name).length := by
        rcases Nat.eq_zero_or_pos (utf8Bytes name).length with h0 | h0
        · exact absurd (List.length_eq_zero.mp h0) (not_or.mp hkey).1
        · exact h0
      have hk2 : (utf8Bytes name).length ≤ 255 := by
        have h255 := (not_or.mp hkey).2
        omega
      refine ⟨[], fun _ => rfl, fun hc => absurd rfl hc, ?_, hk1, hk2,
        hbits.1, hbits.2.1, hbits.2.2⟩
      rw [← h]
      simp [specDescByte, specCustomBlock, specSizeBlock, fieldKindOf, EIP712_TYPE_VALUE] <;> decide
    | fixedBytes s =>
      by_cases hsz : s = 0 ∨ 32 < s
      · simp [encodeFieldDefinition, resolveFieldType, hname, hsz] at h
      simp only [encodeFieldDefinition, resolveFieldType, if_neg hname, gt_iff_lt,
        Nat.lt_one_iff, if_neg hsz, List.length_nil, Nat.lt_irrefl, if_false, List.length_eq_zero, Option.isSome_some,
        Option.isSome_none, Bool.false_eq_true] at h
      split at h
      · exact absurd h (by simp)
      rename_i hkey
      rw [Except.ok.injEq] at h
      have hk1 : 1 ≤ (utf8Bytes name).length := by
        rcases Nat.eq_zero_or_pos (utf8Bytes name).length with h0 | h0
        · exact absurd (List.length_eq_zero.mp h0) (not_or.mp hkey).1
        · exact h0
      have hk2 : (utf8Bytes name).length ≤ 255 := by
        have h255 := (not_or.mp hkey).2
        omega
      refine ⟨[], fun _ => rfl, fun hc => absurd rfl hc, ?_, hk1, hk2,
        hbits.1, hbits.2.1, hbits.2.2⟩
      rw [← h]
      simp [specDescByte, specCustomBlock, specSizeBlock, fieldKindOf, EIP712_TYPE_VALUE] <;> decide
    | dynamicBytes =>
      simp only [encodeFieldDefinition, resolveFieldType, if_neg hname, gt_iff_lt,
        Nat.lt_one_iff, List.length_nil, Nat.lt_irrefl, if_false, List.length_eq_zero, Option.isSome_some,
        Option.isSome_none, Bool.false_eq_true] at h
      split at h
      · exact absurd h (by simp)
      rename_i hkey
      rw [Except.ok.injEq] at h
      have hk1 : 1 ≤ (utf8Bytes name).length := by
        rcases Nat.eq_zero_or_pos (utf8Bytes name).length with h0 | h0
        · exact absurd (List.length_eq_zero.mp h0) (not_or.mp hkey).1
        · exact h0
      have hk2 : (utf8Bytes name).length ≤ 255 := by
        have h255 := (not_or.mp hkey).2
        omega
      refine ⟨[], fun _ => rfl, fun hc => absurd rfl hc, ?_, hk1, hk2,
        hbits.1, hbits.2.1, hbits.2.2⟩
      rw [← h]
      simp [specDescByte, specCustomBlock, specSizeBlock, fieldKindOf, EIP712_TYPE_VALUE] <;> decide
  · have hlen : 0 < lvls.length := List.length_pos.mpr hl
    cases type with
    | custom sn =>
      by_cases hsn : sn = ""
      · simp [encodeFieldDefinition, resolveFieldType, hname, hsn] at h
      by_cases htn : 255 < (utf8Bytes sn).length
      · simp [encodeFieldDefinition, resolveFieldType, hname, hsn, htn] at h
      simp only [encodeFieldDefinition, resolveFieldType, if_neg hname, gt_iff_lt,
        Nat.lt_one_iff, if_neg hsn, if_neg htn, hlen, if_true, List.length_eq_zero, Option.isSome_some,
        Option.isSome_none, Bool.false_eq_true] at h
      split at h
      · exact absurd h (by simp)
      rename_i ab heq
      split at h
      · exact absurd h (by simp)
      rename_i hkey
      rw [Except.ok.injEq] at h
      have hk1 : 1 ≤ (utf8Bytes name).length := by
        rcases Nat.eq_zero_or_pos (utf8Bytes name).length with h0 | h0
        · exact absurd (List.length_eq_zero.mp h0) (not_or.mp hkey).1
        · exact h0
      have hk2 : (utf8Bytes name).length ≤ 255 := by
        have h255 := (not_or.mp hkey).2
        omega
      refine ⟨ab, fun hc => absurd hc hl, fun _ => heq, ?_, hk1, hk2,
        hbits.1, hbits.2.1, hbits.2.2⟩
      rw [← h]
      simp [specDescByte, specCustomBlock, specSizeBlock, fieldKindOf, EIP712_TYPE_VALUE, hl] <;> decide
    | int s =>
      by_cases hsz : s = 0 ∨ 32 < s
      · simp [encodeFieldDefinition, resolveFieldType, hname, hsz] at h
      simp only [encodeFieldDefinition, resolveFieldType, if_neg hname, gt_iff_lt,
        Nat.lt_one_iff, if_neg hsz, hlen, if_true, List.length_eq_zero, Option.isSome_some,
        Option.isSome_none, Bool.false_eq_true] at h
      split at h
      · exact absurd h (by simp)
      rename_i ab heq
      split at h
      · exact absurd h (by simp)
      rename_i hkey
      rw [Except.ok.injEq] at h
      have hk1 : 1 ≤ (utf8Bytes name).length := by
        rcases Nat.eq_zero_or_pos (utf8Bytes name).length with h0 | h0
        · exact absurd (List.length_eq_zero.mp h0) (not_or.mp hkey).1
        · exact h0
      have hk2 : (utf8Bytes name).length ≤ 255 := by
        have h255 := (not_or.mp hkey).2
        omega
      refine ⟨ab, fun hc => absurd hc hl, fun _ => heq, ?_, hk1, hk2,
        hbits.1, hbits.2.1, hbits.2.2⟩
      rw [← h]
      simp [specDescByte, specCustomBlock, specSizeBlock, fieldKindOf, EIP712_TYPE_VALUE, hl] <;> decide
    | uint s =>
      by_cases hsz : s = 0 ∨ 32 < s
      · simp [encodeFieldDefinition, resolveFieldType, hname, hsz] at h
      simp only [encodeFieldDefinition, resolveFieldType, if_neg hname, gt_iff_lt,
        Nat.lt_one_iff, if_neg hsz, hlen, if_true, List.length_eq_zero, Option.isSome_some,
        Option.isSome_none, Bool.false_eq_true] at h
      split at h
      · exact absurd h (by simp)
      rename_i ab heq
      split at h
      · exact absurd h (by simp)
      rename_i hkey
      rw [Except.ok.injEq] at h
      have hk1 : 1 ≤ (utf8Bytes name).length := by
        rcases Nat.eq_zero_or_pos (utf8Bytes name).length with h0 | h0
        · exact absurd (List.length_eq_zero.mp h0) (not_or.mp hkey).1
        · exact h0
      have hk2 : (utf8Bytes name).length ≤ 255 := by
        have h255 := (not_or.mp hkey).2
        omega
      refine ⟨ab, fun hc => absurd hc hl, fun _ => heq, ?_, hk1, hk2,
        hbits.1, hbits.2.1, hbits.2.2⟩
      rw [← h]
      simp [specDescByte, specCustomBlock, specSizeBlock, fieldKindOf, EIP712_TYPE_VALUE, hl] <;> decide
    | address =>
      simp only [encodeFieldDefinition, resolveFieldType, if_neg hname, gt_iff_lt,
        Nat.lt_one_iff, hlen, if_true, List.length_eq_zero, Option.isSome_some,
        Option.isSome_none, Bool.false_eq_true] at h
      split at h
      · exact absurd h (by simp)
      rename_i ab heq
      split at h
      · exact absurd h (by simp)
      rename_i hkey
      rw [Except.ok.injEq] at h
      have hk1 : 1 ≤ (utf8Bytes name).length := by
        rcases Nat.eq_zero_or_pos (utf8Bytes name).length with h0 | h0
        · exact absurd (List.length_eq_zero.mp h0) (not_or.mp hkey).1
        · exact h0
      have hk2 : (utf8Bytes name).length ≤ 255 := by
        have h255 := (not_or.mp hkey).2
        omega
      refine ⟨ab, fun hc => absurd hc hl, fun _ => heq, ?_, hk1, hk2,
        hbits.1, hbits.2.1, hbits.2.2⟩
      rw [← h]
      simp [specDescByte, specCustomBlock, specSizeBlock, fieldKindOf, EIP712_TYPE_VALUE, hl] <;> decide
    | bool =>
      simp only [encodeFieldDefinition, resolveFieldType, if_neg hname, gt_iff_lt,
        Nat.lt_one_iff, hlen, if_true, List.length_eq_zero, Option.isSome_some,
        Option.isSome_none, Bool.false_eq_true] at h
      split at h
      · exact absurd h (by simp)
      rename_i ab heq
      split at h
      · exact absurd h (by simp)
      rename_i hkey
      rw [Except.ok.injEq] at h
      have hk1 : 1 ≤ (utf8Bytes name).length := by
        rcases Nat.eq_zero_or_pos (utf8Bytes name).length with h0 | h0
        · exact absurd (List.length_eq_zero.mp h0) (not_or.mp hkey).1
        · exact h0
      have hk2 : (utf8Bytes name).length ≤ 255 := by
        have h255 := (not_or.mp hkey).2
        omega
      refine ⟨ab, fun hc => absurd hc hl, fun _ => heq, ?_, hk1, hk2,
        hbits.1, hbits.2.1, hbits.2.2⟩
      rw [← h]
      simp [specDescByte, specCustomBlock, specSizeBlock, fieldKindOf, EIP712_TYPE_VALUE, hl] <;> decide
    | string =>
      simp only [encodeFieldDefinition, resolveFieldType, if_neg hname, gt_iff_lt,
        Nat.lt_one_iff, hlen, if_true, List.length_eq_zero, Option.isSome_some,
        Option.isSome_none, Bool.false_eq_true] at h
      split at h
      · exact absurd h (by simp)
      rename_i ab heq
      split at h
      · exact absurd h (by simp)
      rename_i hkey
      rw [Except.ok.injEq] at h
      have hk1 : 1 ≤ (utf8Bytes name).length := by
        rcases Nat.eq_zero_or_pos (utf8Bytes name).length with h0 | h0
        · exact absurd (List.length_eq_zero.mp h0) (not_or.mp hkey).1
        · exact h0
      have hk2 : (utf8Bytes name).length ≤ 255 := by
        have h255 := (not_or.mp hkey).2
        omega
      refine ⟨ab, fun hc => absurd hc hl, fun _ => heq, ?_, hk1, hk2,
        hbits.1, hbits.2.1, hbits.2.2⟩
      rw [← h]
      simp [specDescByte, specCustomBlock, specSizeBlock, fieldKindOf, EIP712_TYPE_VALUE, hl] <;> decide
    | fixedBytes s =>
      by_cases hsz : s = 0 ∨ 32 < s
      · simp [encodeFieldDefinition, resolveFieldType, hname, hsz] at h
      simp only [encodeFieldDefinition, resolveFieldType, if_neg hname, gt_iff_lt,
        Nat.lt_one_iff, if_neg hsz, hlen, if_true, List.length_eq_zero, Option.isSome_some,
        Option.isSome_none, Bool.false_eq_true] at h
      split at h
      · exact absurd h (by simp)
      rename_i ab heq
      split at h
      · exact absurd h (by simp)
      rename_i hkey
      rw [Except.ok.injEq] at h
      have hk1 : 1 ≤ (utf8Bytes name).length := by
        rcases Nat.eq_zero_or_pos (utf8Bytes name).length with h0 | h0
        · exact absurd (List.length_eq_zero.mp h0) (not_or.mp hkey).1
        · exact h0
      have hk2 : (utf8Bytes name).length ≤ 255 := by
        have h255 := (not_or.mp hkey).2
        omega
      refine ⟨ab, fun hc => absurd hc hl, fun _ => heq, ?_, hk1, hk2,
        hbits.1, hbits.2.1, hbits.2.2⟩
      rw [← h]
      simp [specDescByte, specCustomBlock, specSizeBlock, fieldKindOf, EIP712_TYPE_VALUE, hl] <;> decide
    | dynamicBytes =>
      simp only [encodeFieldDefinition, resolveFieldType, if_neg hname, gt_iff_lt,
        Nat.lt_one_iff, hlen, if_true, List.length_eq_zero, Option.isSome_some,
        Option.isSome_none, Bool.false_eq_true] at h
      split at h
      · exact absurd h (by simp)
      rename_i ab heq
      split at h
      · exact absurd h (by simp)
      rename_i hkey
      rw [Except.ok.injEq] at h
      have hk1 : 1 ≤ (utf8Bytes name).length := by
        rcases Nat.eq_zero_or_pos (utf8Bytes name).length with h0 | h0
        · exact absurd (List.length_eq_zero.mp h0) (not_or.mp hkey).1
        · exact h0
      have hk2 : (utf8Bytes name).length ≤ 255 := by
        have h255 := (not_or.mp hkey).2
        omega
      refine ⟨ab, fun hc => absurd hc hl, fun _ => heq, ?_, hk1, hk2,
        hbits.1, hbits.2.1, hbits.2.2⟩
      rw [← h]
      simp [specDescByte, specCustomBlock, specSizeBlock, fieldKindOf, EIP712_TYPE_VALUE, hl] <;> decide

/-- Witness for claim C1: the theorem applied to the concrete definition
`{name: "to", type: address}` whose encoding is `[0x03, 2, 't', 'o']`. -/
theorem c1_encodeFieldDefinition_format_witness :
    1 ≤ (utf8Bytes "to").length ∧ (utf8Bytes "to").length ≤ 255 :=
  (c1_encodeFieldDefinition_format ⟨"to", EIP712FieldType.address, []⟩ [3, 2, 116, 111]
      rfl).elim (fun _ hc => ⟨hc.2.2.2.1, hc.2.2.2.2.1⟩)


/-! ## Order properties of the collation model -/

theorem weightsLt_irrefl : ∀ xs : List Nat, weightsLt xs xs = false := by
  intro xs
  induction xs with
  | nil => rfl
  | cons a as ih => simp [weightsLt, ih]

theorem weightsLt_trans : ∀ xs ys zs : List Nat,
    weightsLt xs ys = true → weightsLt ys zs = true → weightsLt xs zs = true := by
  intro xs
  induction xs with
  | nil =>
    intro ys zs h₁ h₂
    cases ys with
    | nil => exact absurd h₁ (by simp [weightsLt])
    | cons b bs =>
      cases zs with
      | nil => exact absurd h₂ (by simp [weightsLt])
      | cons c cs => simp [weightsLt]
  | cons a as ih =>
    intro ys zs h₁ h₂
    cases ys with
    | nil => exact absurd h₁ (by simp [weightsLt])
    | cons b bs =>
      cases zs with
      | nil => exact absurd h₂ (by simp [weightsLt])
      | cons c cs =>
        simp only [weightsLt] at h₁ h₂ ⊢
        split at h₁
        · split at h₂
          · rw [if_pos (by omega)]
          · split at h₂
            · exact absurd h₂ (by simp)
            · rw [if_pos (by omega)]
        · split at h₁
          · exact absurd h₁ (by simp)
          · split at h₂
            · rw [if_pos (by omega)]
            · split at h₂
              · exact absurd h₂ (by simp)
              · have hab : a = b := by omega
                have hbc : b = c := by omega
                subst hab; subst hbc
                rw [if_neg (by omega), if_neg (by omega)]
                exact ih bs cs h₁ h₂

theorem weightsLt_total : ∀ xs ys : List Nat,
    weightsLt xs ys = true ∨ weightsLt ys xs = true ∨ xs = ys := by
  intro xs
  induction xs with
  | nil =>
    intro ys
    cases ys with
    | nil => right; right; rfl
    | cons b bs => left; simp [weightsLt]
  | cons a as ih =>
    intro ys
    cases ys with
    | nil => right; left; simp [weightsLt]
    | cons b bs =>
      rcases Nat.lt_trichotomy a b with hab | hab | hab
      · left; simp [weightsLt, hab]
      · subst hab
        rcases ih bs with h | h | h
        · left; simp [weightsLt, h]
        · right; left; simp [weightsLt, h]
        · right; right; rw [h]
      · right; left; simp [weightsLt, hab]

theorem weightsLt_asymm {xs ys : List Nat}
    (h : weightsLt xs ys = true) : weightsLt ys xs = false := by
  by_contra hc
  have h' : weightsLt ys xs = true := by
    cases hys : weightsLt ys xs
    · exact absurd hys hc
    · rfl
  have := weightsLt_trans xs ys xs h h'
  rw [weightsLt_irrefl] at this
  exact absurd this (by simp)

/-- The rank of a list member is below the list length. -/
theorem symRank_lt_length {n : Nat} : ∀ {l : List Nat},
    n ∈ l → symRank n l < l.length := by
  intro l
  induction l with
  | nil => intro h; cases h
  | cons m ms ih =>
    intro h
    unfold symRank
    by_cases hnm : n = m
    · simp [hnm]
    · rw [if_neg hnm]
      have hmem : n ∈ ms := by
        cases h with
        | head => exact absurd rfl hnm
        | tail _ h' => exact h'
      have := ih hmem
      simp only [List.length_cons]
      omega

/-- On members of a list, `symRank` is injective (it reads off the first
occurrence). -/
theorem symRank_inj {m n : Nat} : ∀ {l : List Nat},
    m ∈ l → n ∈ l → symRank m l = symRank n l → m = n := by
  intro l
  induction l with
  | nil => intro h; cases h
  | cons a as ih =>
    intro hm hn h
    unfold symRank at h
    by_cases h1 : m = a <;> by_cases h2 : n = a
    · exact h1.trans h2.symm
    · rw [if_pos h1, if_neg h2] at h; omega
    · rw [if_neg h1, if_pos h2] at h; omega
    · rw [if_neg h1, if_neg h2] at h
      have hm' : m ∈ as := by
        cases hm with
        | head => exact absurd rfl h1
        | tail _ hx => exact hx
      have hn' : n ∈ as := by
        cases hn with
        | head => exact absurd rfl h2
        | tail _ hx => exact hx
      exact ih hm' hn' (by omega)

/-- The collation key determines the character list: the weight ranges of
the symbol, digit, letter and fallback branches are pairwise disjoint,
ranks are injective on `asciiSymbolOrder`, and the case weight separates an
uppercase letter from the lowercase letter it folds onto. -/
theorem primWeight_caseWeight_inj {a b : Char}
    (hp : primWeight a = primWeight b) (hc : caseWeight a = caseWeight b) :
    a = b := by
  have ha := Char.ofNat_toNat a
  have hb := Char.ofNat_toNat b
  have htn : a.toNat = b.toNat := by
    unfold primWeight at hp
    unfold caseWeight at hc
    repeat' split at hp
    all_goals repeat' split at hc
    all_goals
      (try have hia : symRank a.toNat asciiSymbolOrder < 33 :=
        symRank_lt_length (by assumption))
    all_goals
      (try have hib : symRank b.toNat asciiSymbolOrder < 33 :=
        symRank_lt_length (by assumption))
    all_goals
      first
        | omega
        | exact symRank_inj (by assumption) (by assumption) (by omega)
  rw [htn] at ha
  exact ha.symm.trans hb

theorem collationKey_inj : ∀ {a b : String},
    collationKey a = collationKey b → a = b := by
  have aux : ∀ (cs ds : List Char),
      cs.map primWeight = ds.map primWeight →
      cs.map caseWeight = ds.map caseWeight → cs = ds := by
    intro cs
    induction cs with
    | nil =>
      intro ds hp _hc
      cases ds with
      | nil => rfl
      | cons d ds => exact absurd hp (by simp)
    | cons c cs ih =>
      intro ds hp hc
      cases ds with
      | nil => exact absurd hp (by simp)
      | cons d ds =>
        simp only [List.map_cons, List.cons.injEq] at hp hc
        rw [primWeight_caseWeight_inj hp.1 hc.1, ih ds hp.2 hc.2]
  intro a b h
  unfold collationKey at h
  have hlen : a.data.length = b.data.length := by
    have h' := congrArg List.length h
    simp only [List.length_append, List.length_map, List.length_cons] at h'
    omega
  have hsplit := List.append_inj h (by simp [hlen])
  obtain ⟨hp, hc⟩ := hsplit
  rw [List.cons.injEq] at hc
  have hdata : a.data = b.data := aux _ _ hp hc.2
  cases a; cases b
  exact congrArg String.mk hdata

theorem localeLeB_total (a b : String) :
    localeLeB a b = true ∨ localeLeB b a = true := by
  unfold localeLeB localeLtB
  by_cases h : weightsLt (collationKey b) (collationKey a) = true
  · right
    rw [weightsLt_asymm h]
    rfl
  · left
    cases hx : weightsLt (collationKey b) (collationKey a)
    · rfl
    · exact absurd hx h

theorem localeLeB_trans {a b c : String}
    (h₁ : localeLeB a b = true) (h₂ : localeLeB b c = true) :
    localeLeB a c = true := by
  unfold localeLeB localeLtB at h₁ h₂ ⊢
  rw [Bool.not_eq_true'] at h₁ h₂ ⊢
  by_contra hc
  have hca : weightsLt (collationKey c) (collationKey a) = true := by
    cases hx : weightsLt (collationKey c) (collationKey a)
    · exact absurd hx hc
    · rfl
  rcases weightsLt_total (collationKey a) (collationKey b) with hab | hab | hab
  · have := weightsLt_trans _ _ _ hca hab
    rw [h₂] at this
    exact absurd this (by simp)
  · rw [h₁] at hab
    exact absurd hab (by simp)
  · rw [← hab] at h₂
    rw [h₂] at hca
    exact absurd hca (by simp)

theorem localeLeB_ne_lt {a b : String}
    (hle : localeLeB a b = true) (hne : a ≠ b) : localeLtB a b = true := by
  unfold localeLeB at hle
  unfold localeLtB at hle ⊢
  rw [Bool.not_eq_true'] at hle
  rcases weightsLt_total (collationKey a) (collationKey b) with h | h | h
  · exact h
  · rw [h] at hle
    exact absurd hle (by simp)
  · exact absurd (collationKey_inj h) hne

instance : IsTotal (String × List TDField) entryLe :=
  ⟨fun p q => localeLeB_total p.1 q.1⟩

instance : IsTrans (String × List TDField) entryLe :=
  ⟨fun _ _ _ h₁ h₂ => localeLeB_trans h₁ h₂⟩

/-- The strict name order on table entries. -/
def entryLt (p q : String × List TDField) : Prop :=
  localeLtB p.1 q.1 = true

instance : IsAntisymm (String × List TDField) entryLt :=
  ⟨fun p q h h' => absurd h'
    (by unfold entryLt localeLtB at h ⊢; rw [weightsLt_asymm h]; simp)⟩

/-- Insertion sort by the locale order is invariant under permutations of a
table with distinct struct names. -/
theorem insertionSort_entryLe_eq {l₁ l₂ : List (String × List TDField)}
    (hperm : l₁.Perm l₂) (hnodup : (l₁.map Prod.fst).Nodup) :
    List.insertionSort entryLe l₁ = List.insertionSort entryLe l₂ := by
  have hps₁ := List.perm_insertionSort entryLe l₁
  have hps₂ := List.perm_insertionSort entryLe l₂
  have hnd₁ : ((List.insertionSort entryLe l₁).map Prod.fst).Nodup :=
    ((hps₁.map Prod.fst).nodup_iff).mpr hnodup
  have hnd₂ : ((List.insertionSort entryLe l₂).map Prod.fst).Nodup :=
    ((hps₂.map Prod.fst).nodup_iff).mpr ((hperm.map Prod.fst).nodup_iff.mp hnodup)
  have hstrict : ∀ (l : List (String × List TDField)),
      l.Sorted entryLe → (l.map Prod.fst).Nodup → l.Pairwise entryLt := by
    intro l hs hnd
    have hne : l.Pairwise (fun p q => p.1 ≠ q.1) := List.pairwise_map.mp hnd
    exact (hs.and hne).imp (fun h => localeLeB_ne_lt h.1 h.2)
  exact List.eq_of_perm_of_sorted
    ((hps₁.trans hperm).trans hps₂.symm)
    (hstrict _ (List.sorted_insertionSort entryLe l₁) hnd₁)
    (hstrict _ (List.sorted_insertionSort entryLe l₂) hnd₂)

/-- `buildEntry` keeps the struct name. -/
theorem buildEntry_name {e : String × List TDField}
    {b : String × List (EIP712FieldDefinition × StructMetaField)}
    (h : buildEntry e = .ok b) : b.1 = e.1 := by
  unfold buildEntry at h
  split at h
  · exact absurd h (by simp)
  · rw [Except.ok.injEq] at h
    rw [← h]

/-- A successful `mapM buildEntry` keeps all struct names in order. -/
theorem mapM_buildEntry_names : ∀ (l : List (String × List TDField))
    (ps : List (String × List (EIP712FieldDefinition × StructMetaField))),
    l.mapM buildEntry = .ok ps → ps.map Prod.fst = l.map Prod.fst := by
  intro l
  induction l with
  | nil =>
    intro ps h
    simp only [List.mapM_nil, pure, Except.pure, Except.ok.injEq] at h
    rw [← h]
    rfl
  | cons e rest ih =>
    intro ps h
    rw [List.mapM_cons] at h
    cases hb : buildEntry e with
    | error err => rw [hb] at h; exact absurd h (by simp [Bind.bind, Except.bind])
    | ok b =>
      rw [hb] at h
      cases hr : rest.mapM buildEntry with
      | error err =>
          rw [hr] at h
          exact absurd h (by simp [Bind.bind, Except.bind, pure, Except.pure])
      | ok bs =>
          rw [hr] at h
          simp only [Bind.bind, Except.bind, pure, Except.pure, Except.ok.injEq] at h
          rw [← h]
          simp only [List.map_cons, List.cons.injEq]
          exact ⟨buildEntry_name hb, ih bs hr⟩

/-- The sorted table is strictly increasing in the locale order on names
whenever the names are distinct. -/
theorem insertionSort_entryLe_strict (l : List (String × List TDField))
    (hnodup : (l.map Prod.fst).Nodup) :
    (List.insertionSort entryLe l).Pairwise entryLt := by
  have hps := List.perm_insertionSort entryLe l
  have hnd : ((List.insertionSort entryLe l).map Prod.fst).Nodup :=
    ((hps.map Prod.fst).nodup_iff).mpr hnodup
  have hne : (List.insertionSort entryLe l).Pairwise (fun p q => p.1 ≠ q.1) :=
    List.pairwise_map.mp hnd
  exact ((List.sorted_insertionSort entryLe l).and hne).imp
    (fun h => localeLeB_ne_lt h.1 h.2)

/-- In the root collation every symbol sorts before every digit, so the
underscore puts `Order_V2` before `Order2`, matching
`"Order_V2".localeCompare("Order2") < 0`, while codepoint order would put
`Order2` first. -/
theorem localeLtB_underscore_example :
    localeLtB "Order_V2" "Order2" = true ∧
      specCodepointLt "Order2" "Order_V2" = true := by
  constructor
  · decide
  · decide

/-- Claim C2 (amended): for a type table whose struct names are distinct
and consist of printable ASCII characters, the builder's output does not
depend on the iteration order of the input mapping, and the emitted struct
definitions are sorted by struct name in strictly increasing order of the
locale-aware `localeCompare` comparison used by the source (ICU root
collation: punctuation and symbols in root order before digits, digits
before letters, letters compared case-insensitively with lowercase before
uppercase as the tie break) — not in raw byte/codepoint order. -/
theorem c2_buildDefinitions_sorted (l₁ l₂ : List (String × List TDField))
    (hperm : l₁.Perm l₂) (hnodup : (l₁.map Prod.fst).Nodup)
    (hascii : ∀ p ∈ l₁, ∀ c ∈ p.1.data, 32 ≤ c.toNat ∧ c.toNat ≤ 126) :
    buildDefinitions l₁ = buildDefinitions l₂ ∧
    (∀ defs mm, buildDefinitions l₁ = .ok (defs, mm) →
      (defs.map PreparedDefinition.name).Pairwise (fun a b => localeLtB a b = true)) := by
  constructor
  · unfold buildDefinitions
    rw [insertionSort_entryLe_eq hperm hnodup]
  · intro defs mm h
    unfold buildDefinitions at h
    cases hm : (List.insertionSort entryLe l₁).mapM buildEntry with
    | error e => rw [hm] at h; exact absurd h (by simp)
    | ok processed =>
      rw [hm, Except.ok.injEq, Prod.mk.injEq] at h
      have hnames : defs.map PreparedDefinition.name = processed.map Prod.fst := by
        rw [← h.1, List.map_map]
        rfl
      rw [hnames, mapM_buildEntry_names _ _ hm]
      exact List.pairwise_map.mpr (insertionSort_entryLe_strict l₁ hnodup)

/-- Witness for claim C2: two opposite iteration orders of the same
two-struct table build identical output. -/
theorem c2_buildDefinitions_sorted_witness :
    buildDefinitions [("B", []), ("a", [])] = buildDefinitions [("a", []), ("B", [])] :=
  (c2_buildDefinitions_sorted [("B", []), ("a", [])] [("a", []), ("B", [])]
    (List.Perm.swap ("a", []) ("B", []) []) (by decide) (by decide)).1

/-- Counterexample to claim C2 as stated: the table `{B, a}` is emitted in
the order `[a, B]` (the `localeCompare` order puts `"a"` before `"B"`), but
byte/codepoint order would demand `"B"` first — `["a", "B"]` is not
codepoint-sorted. -/
theorem c2_buildDefinitions_codepoint_counterexample :
    buildDefinitions [("B", []), ("a", [])] =
      .ok ([⟨"a", []⟩, ⟨"B", []⟩], [("a", []), ("B", [])]) ∧
    ¬ (["a", "B"] : List String).Pairwise (fun a b => specCodepointLt a b = true) := by
  constructor
  · decide
  · decide


/-! ## Claims about the value encoder -/

theorem tmod_neg_dividend (a b : Int) : Int.tmod (-a) b = -(Int.tmod a b) := by
  simp [Int.tmod_def]
  ring_nf

/-- JavaScript's `(m + (v % m)) % m` (truncated remainders) is the
mathematical residue `v mod m`. -/
theorem tmod_wrap_eq_emod (v m : Int) (hm : 0 < m) :
    (m + v.tmod m).tmod m = v % m := by
  have hub : v.tmod m < m := Int.tmod_lt_of_pos v hm
  have hlb : -m < v.tmod m := by
    have h1 : v.tmod m = -((-v).tmod m) := by rw [tmod_neg_dividend, neg_neg]
    have h2 : (-v).tmod m < m := Int.tmod_lt_of_pos (-v) hm
    omega
  have hnn : 0 ≤ m + v.tmod m := by omega
  rw [Int.tmod_eq_emod hnn (le_of_lt hm)]
  have hq := Int.tmod_add_tdiv v m
  have hv_eq : v = v.tmod m + m * v.tdiv m := by omega
  calc (m + v.tmod m) % m = (v.tmod m + m * 1) % m := by ring_nf
    _ = v.tmod m % m := Int.add_mul_emod_self_left _ _ _
    _ = (v.tmod m + m * v.tdiv m) % m := (Int.add_mul_emod_self_left _ _ _).symm
    _ = v % m := by rw [← hv_eq]

/-- Claim C3: for an `int`/`uint` field of byte size `s` (bit width `s*8`),
a negative integer value encodes as the minimal big-endian byte string of
its two's-complement residue `v mod 2^(s*8)`; in particular `-1` encodes to
`0xff` for `int8` and to 32 bytes `0xff` for `int256`. -/
theorem c3_encodeInteger_negative (v : Int) (s : Nat) (hneg : v < 0) :
    encodeInteger (some (.vBigInt v)) (s * 8) =
      .ok (hexPairsToBytes (padHexDigits (natToHexDigits (v % (2 ^ (s * 8))).toNat))) ∧
    (∀ w : JsValue, encodePrimitiveValue .int (some s) w = encodeInteger (some w) (s * 8)) ∧
    (∀ w : JsValue, encodePrimitiveValue .uint (some s) w = encodeInteger (some w) (s * 8)) ∧
    encodeInteger (some (.vBigInt (-1))) (1 * 8) = .ok [0xff] ∧
    encodeInteger (some (.vBigInt (-1))) (32 * 8) = .ok (List.replicate 32 0xff) := by
  refine ⟨?_, fun w => rfl, fun w => rfl, by decide,
    by set_option maxRecDepth 10000 in decide⟩
  show Except.ok (encodeIntegerTail v (s * 8)) = _
  unfold encodeIntegerTail
  rw [if_pos hneg, tmod_wrap_eq_emod v _ (by positivity)]

/-- Witness for claim C3 at `v = -2`, `s = 1`: the encoding is `0xfe`. -/
theorem c3_encodeInteger_negative_witness :
    encodeInteger (some (.vBigInt (-2))) (1 * 8) =
      .ok (hexPairsToBytes (padHexDigits (natToHexDigits ((-2 : Int) % (2 ^ (1 * 8))).toNat))) :=
  (c3_encodeInteger_negative (-2) 1 (by decide)).1

/-- Counterexample to claim C4 as stated: a missing (`undefined`) or `null`
int/uint value does not encode to the empty byte string — `value ?? "0"`
turns it into the decimal string `"0"`, whose minimal padded hex form is the
single byte `0x00`. -/
theorem c4_encodeInteger_null_counterexample :
    encodeInteger none 8 = .ok [0] ∧
    encodeInteger (some .vNull) 8 = .ok [0] ∧
    encodeInteger none 8 ≠ .ok [] := by
  exact ⟨by decide, by decide, by decide⟩

/-- Claim C4 (amended): for every int/uint bit width, a missing or null
value encodes to the single byte `0x00` (the encoding of zero), not to the
empty byte string. -/
theorem c4_encodeInteger_null_amended (sizeInBits : Nat) :
    encodeInteger none sizeInBits = .ok [0] ∧
    encodeInteger (some .vNull) sizeInBits = .ok [0] :=
  ⟨rfl, rfl⟩

/-- Claim C5: during struct implementation building, a declared field whose
key is absent from the data object (JavaScript `undefined`) makes encoding
fail with an error; a key present with any defined value — including the
falsy `null`, `0`, `false`, `""` — passes that value to the field encoder
(for a one-field struct the result is exactly the field encoder's result);
and the value `0` for a `uint` field is valid, encoding to the byte `0x00`,
distinct from an absent key which errors. -/
theorem c5_encodeStruct_presence
    (metaMap : List (String × List StructMetaField)) (structName : String)
    (fields : List StructMetaField) (data : JsValue) :
    (∀ mf ∈ fields, jsGet data mf.name = none →
      ∃ e, encodeStructFields metaMap structName fields data = .error e) ∧
    (∀ mf v, jsGet data mf.name = some v →
      encodeStructFields metaMap structName [mf] data = encodeField metaMap mf v) ∧
    (∀ s fieldName, encodeField metaMap ⟨fieldName, .uint, some s, none, []⟩ (.vNum 0) =
      .ok [.field [0]]) := by
  refine ⟨?_, ?_, ?_⟩
  · intro mf hmem hnone
    induction fields with
    | nil => cases hmem
    | cons f rest ih =>
      rw [encodeStructFields]
      rcases List.mem_cons.mp hmem with heq | hrest
      · subst heq
        split
        · exact ⟨_, rfl⟩
        · rename_i v hv
          rw [hnone] at hv
          exact absurd hv (by simp)
      · split
        · exact ⟨_, rfl⟩
        · rename_i v hv
          split
          · exact ⟨_, rfl⟩
          · rename_i entries he
            obtain ⟨e, hrec⟩ := ih hrest
            rw [hrec]
            exact ⟨e, rfl⟩
  · intro mf v hv
    rw [encodeStructFields]
    split
    · rename_i hnone
      rw [hv] at hnone
      exact absurd hnone (by simp)
    · rename_i w hw
      rw [hv] at hw
      injection hw with hw
      subst hw
      cases he : encodeField metaMap mf v with
      | error e => rfl
      | ok entries => simp [encodeStructFields]
  · intro s fieldName
    simp [encodeField, encodePrimitiveValue, encodeInteger, encodeIntegerTail,
      isSafeInteger, natToHexDigits, natToHexDigitsAux, padHexDigits, hexPairsToBytes]

/-- Witness for claim C5: an absent key errors for a concrete one-field
struct, a present zero encodes. -/
theorem c5_encodeStruct_presence_witness :
    (∃ e, encodeStructFields [] "S" [⟨"a", .uint, some 1, none, []⟩] (.vObj []) = .error e) ∧
    encodeField [] ⟨"amount", .uint, some 1, none, []⟩ (.vNum 0) = .ok [.field [0]] :=
  ⟨(c5_encodeStruct_presence [] "S" [⟨"a", .uint, some 1, none, []⟩] (.vObj [])).1
      ⟨"a", .uint, some 1, none, []⟩ (List.mem_singleton.mpr rfl) rfl,
   (c5_encodeStruct_presence [] "S" [] (.vObj [])).2.2 1 "amount"⟩

/-- Claim C6: a type table defining both domain roots fails with the
ambiguity error for every typed-data input (so before any domain or message
data is encoded); with exactly one domain root, a successful build starts
with that root entry and the encoded domain fields before the primary-type
entries; with neither, a successful build starts directly at the
primary-type root. -/
theorem c6_buildImplementation_domain
    (metaMap : List (String × List StructMetaField)) (td : EIP712TypedData) :
    ((assocLookup metaMap EIP712_DOMAIN).isSome ∧ (assocLookup metaMap CIP23_DOMAIN).isSome →
      buildImplementation metaMap td =
        .error ("Ambiguous domain: both EIP712Domain and CIP23Domain are present")) ∧
    (∀ dr, (((assocLookup metaMap EIP712_DOMAIN).isSome ∧
            ¬ (assocLookup metaMap CIP23_DOMAIN).isSome ∧ dr = EIP712_DOMAIN) ∨
           (¬ (assocLookup metaMap EIP712_DOMAIN).isSome ∧
            (assocLookup metaMap CIP23_DOMAIN).isSome ∧ dr = CIP23_DOMAIN)) →
      ∀ entries, buildImplementation metaMap td = .ok entries →
        ∃ domEs msgEs, encodeStruct metaMap dr (.vObj td.domain) = .ok domEs ∧
          encodeStruct metaMap td.primaryType (.vObj td.message) = .ok msgEs ∧
          (assocLookup metaMap td.primaryType).isSome ∧
          entries = .root dr :: domEs ++ .root td.primaryType :: msgEs) ∧
    (¬ (assocLookup metaMap EIP712_DOMAIN).isSome →
     ¬ (assocLookup metaMap CIP23_DOMAIN).isSome →
      ∀ entries, buildImplementation metaMap td = .ok entries →
        ∃ msgEs, encodeStruct metaMap td.primaryType (.vObj td.message) = .ok msgEs ∧
          (assocLookup metaMap td.primaryType).isSome ∧
          entries = .root td.primaryType :: msgEs) := by
  refine ⟨?_, ?_, ?_⟩
  · intro h
    unfold buildImplementation
    rw [if_pos h]
  · rintro dr (⟨hE, hC, hdr⟩ | ⟨hE, hC, hdr⟩) entries h <;> subst hdr <;>
      unfold buildImplementation at h <;>
      rw [if_neg (by tauto)] at h
    · rw [if_pos hE] at h
      simp only [] at h
      cases hd : encodeStruct metaMap EIP712_DOMAIN (.vObj td.domain) with
      | error e => rw [hd] at h; exact absurd h (by simp)
      | ok domEs =>
        rw [hd] at h
        (try dsimp only [] at h)
        by_cases hp : (assocLookup metaMap td.primaryType).isNone
        · rw [if_pos hp] at h; exact absurd h (by simp)
        · rw [if_neg hp] at h
          cases hmsg : encodeStruct metaMap td.primaryType (.vObj td.message) with
          | error e => rw [hmsg] at h; exact absurd h (by simp)
          | ok msgEs =>
            rw [hmsg] at h
            (try dsimp only [] at h)
            rw [Except.ok.injEq] at h
            exact ⟨domEs, msgEs, rfl, rfl, by rw [Option.isSome_iff_ne_none]; simpa [Option.isNone_iff_eq_none] using hp,
              by rw [← h]⟩
    · rw [if_neg hE, if_pos hC] at h
      simp only [] at h
      cases hd : encodeStruct metaMap CIP23_DOMAIN (.vObj td.domain) with
      | error e => rw [hd] at h; exact absurd h (by simp)
      | ok domEs =>
        rw [hd] at h
        (try dsimp only [] at h)
        by_cases hp : (assocLookup metaMap td.primaryType).isNone
        · rw [if_pos hp] at h; exact absurd h (by simp)
        · rw [if_neg hp] at h
          cases hmsg : encodeStruct metaMap td.primaryType (.vObj td.message) with
          | error e => rw [hmsg] at h; exact absurd h (by simp)
          | ok msgEs =>
            rw [hmsg] at h
            (try dsimp only [] at h)
            rw [Except.ok.injEq] at h
            exact ⟨domEs, msgEs, rfl, rfl, by rw [Option.isSome_iff_ne_none]; simpa [Option.isNone_iff_eq_none] using hp,
              by rw [← h]⟩
  · intro hE hC entries h
    unfold buildImplementation at h
    rw [if_neg (by tauto), if_neg hE, if_neg hC] at h
    (try dsimp only [] at h)
    by_cases hp : (assocLookup metaMap td.primaryType).isNone
    · rw [if_pos hp] at h; exact absurd h (by simp)
    · rw [if_neg hp] at h
      cases hmsg : encodeStruct metaMap td.primaryType (.vObj td.message) with
      | error e => rw [hmsg] at h; exact absurd h (by simp)
      | ok msgEs =>
        rw [hmsg] at h
        (try dsimp only [] at h)
        rw [Except.ok.injEq] at h
        exact ⟨msgEs, rfl, by rw [Option.isSome_iff_ne_none]; simpa [Option.isNone_iff_eq_none] using hp, by rw [← h]; rw [List.nil_append]⟩

/-- Witness for claim C6: the ambiguity error on a table defining both
domain roots. -/
theorem c6_buildImplementation_domain_witness :
    buildImplementation [("EIP712Domain", []), ("CIP23Domain", [])] ⟨[], "T", [], []⟩ =
      .error ("Ambiguous domain: both EIP712Domain and CIP23Domain are present") :=
  (c6_buildImplementation_domain [("EIP712Domain", []), ("CIP23Domain", [])]
    ⟨[], "T", [], []⟩).1 ⟨by decide, by decide⟩

/-- A successful `mapM` over `Except` yields one output per input. -/
theorem mapM_ok_length {α β : Type} (f : α → Except String β) :
    ∀ (l : List α) (bs : List β), l.mapM f = .ok bs → bs.length = l.length := by
  intro l
  induction l with
  | nil =>
    intro bs h
    simp only [List.mapM_nil, pure, Except.pure, Except.ok.injEq] at h
    rw [← h]
    rfl
  | cons a rest ih =>
    intro bs h
    rw [List.mapM_cons] at h
    cases hfa : f a with
    | error e => rw [hfa] at h; exact absurd h (by simp [Bind.bind, Except.bind])
    | ok b =>
      rw [hfa] at h
      cases hr : rest.mapM f with
      | error e =>
        rw [hr] at h
        exact absurd h (by simp [Bind.bind, Except.bind, pure, Except.pure])
      | ok bs' =>
        rw [hr] at h
        simp only [Bind.bind, Except.bind, pure, Except.pure, Except.ok.injEq] at h
        rw [← h]
        simp [ih bs' hr]

/-- The element loop of the array branch equals a `mapM` over the elements
followed by flattening the per-element groups. -/
theorem encodeFieldElems_eq_mapM (metaMap : List (String × List StructMetaField))
    (f : StructMetaField) :
    ∀ (elems : List JsValue),
      encodeFieldElems metaMap f elems =
        (elems.mapM (encodeField metaMap f)).map List.flatten := by
  intro elems
  induction elems with
  | nil =>
    rw [encodeFieldElems]
    simp [List.mapM.loop, pure, Except.pure, Except.map]
  | cons x rest ih =>
    rw [encodeFieldElems, List.mapM_cons]
    cases he : encodeField metaMap f x with
    | error e => simp [Bind.bind, Except.bind, Except.map]
    | ok es =>
      rw [ih]
      cases hr : rest.mapM (encodeField metaMap f) with
      | error e => simp [Bind.bind, Except.bind, Except.map, pure, Except.pure]
      | ok groups => simp [Bind.bind, Except.bind, Except.map, pure, Except.pure]

/-- Claim C7: when the outermost remaining array level is `fixed(n)`, an
array value of length ≠ n fails; length exactly n succeeds (given the
element encodings) and emits exactly one `array(n)` entry followed by the
`n` recursively encoded element groups, each encoded against the remaining
(one-fewer) levels; a dynamic level accepts any length and emits
`array(len)` for the actual length. -/
theorem c7_encodeField_array
    (metaMap : List (String × List StructMetaField)) (fieldName : String)
    (kind : EIP712FieldKind) (size : Option Nat) (structName : Option String)
    (n : Nat) (rest : List (Option Nat)) (elems : List JsValue) :
    (elems.length ≠ n →
      ∃ e, encodeField metaMap ⟨fieldName, kind, size, structName, some n :: rest⟩
        (.vArr elems) = .error e) ∧
    (∀ groups,
      elems.mapM (encodeField metaMap ⟨fieldName, kind, size, structName, rest⟩) = .ok groups →
      (elems.length = n →
        encodeField metaMap ⟨fieldName, kind, size, structName, some n :: rest⟩ (.vArr elems) =
          .ok (.array n :: groups.flatten) ∧ groups.length = n) ∧
      (encodeField metaMap ⟨fieldName, kind, size, structName, none :: rest⟩ (.vArr elems) =
          .ok (.array elems.length :: groups.flatten) ∧ groups.length = elems.length)) := by
  constructor
  · intro hne
    rw [encodeField]
    dsimp only
    simp only [if_pos hne]
    exact ⟨_, rfl⟩
  · intro groups hg
    have hlen := mapM_ok_length _ _ _ hg
    constructor
    · intro he
      refine ⟨?_, by omega⟩
      rw [encodeField]
      dsimp only
      simp only [if_neg (by omega : ¬ elems.length ≠ n)]
      rw [encodeFieldElems_eq_mapM, hg]
      simp [Except.map, he]
    · refine ⟨?_, by omega⟩
      rw [encodeField]
      dsimp only
      rw [encodeFieldElems_eq_mapM, hg]
      simp [Except.map]

/-- Witness for claim C7: a `uint8[2]` field with a 1-element array fails;
with a 2-element array it emits `array(2)` then the two encoded elements. -/
theorem c7_encodeField_array_witness :
    (∃ e, encodeField [] ⟨"xs", .uint, some 1, none, [some 2]⟩ (.vArr [.vNum 1]) = .error e) ∧
    encodeField [] ⟨"xs", .uint, some 1, none, [some 2]⟩ (.vArr [.vNum 1, .vNum 2]) =
      .ok [.array 2, .field [1], .field [2]] := by
  constructor
  · exact (c7_encodeField_array [] "xs" .uint (some 1) none 2 [] [.vNum 1]).1 (by decide)
  · have h := ((c7_encodeField_array [] "xs" .uint (some 1) none 2 []
      [.vNum 1, .vNum 2]).2 [[.field [1]], [.field [2]]] (by
        simp [List.mapM_cons, List.mapM.loop, encodeField, encodePrimitiveValue,
          encodeInteger, encodeIntegerTail, isSafeInteger, natToHexDigits,
          natToHexDigitsAux, padHexDigits, hexPairsToBytes, Bind.bind, Except.bind,
          pure, Except.pure])).1 rfl
    rw [h.1]
    rfl

/-! ## Claims about the chunked transport -/

theorem splitMessageAux_spec : ∀ (fuel : Nat) (msg : List Nat) (cs : Nat),
    msg.length ≤ fuel → 0 < cs →
    (splitMessageAux fuel msg cs).flatten = msg ∧
    (∀ c ∈ splitMessageAux fuel msg cs, c.length ≤ cs) ∧
    splitMessageAux fuel msg cs ≠ [] := by
  intro fuel
  induction fuel with
  | zero =>
    intro msg cs hlen hcs
    have hnil : msg = [] := List.length_eq_zero.mp (Nat.le_zero.mp hlen)
    subst hnil
    refine ⟨rfl, ?_, by simp [splitMessageAux]⟩
    intro c hc
    simp only [splitMessageAux, List.mem_singleton] at hc
    simp [hc]
  | succ fuel ih =>
    intro msg cs hlen hcs
    rw [splitMessageAux]
    by_cases hle : msg.length ≤ cs
    · rw [if_pos hle]
      refine ⟨by simp, ?_, by simp⟩
      intro c hc
      simp only [List.mem_singleton] at hc
      simp [hc, hle]
    · rw [if_neg hle]
      have hdrop : (msg.drop cs).length ≤ fuel := by
        rw [List.length_drop]
        omega
      obtain ⟨hflat, hbound, hne⟩ := ih (msg.drop cs) cs hdrop hcs
      refine ⟨?_, ?_, by simp⟩
      · rw [List.flatten_cons, hflat, List.take_append_drop]
      · intro c hc
        rcases List.mem_cons.mp hc with heq | hmem
        · subst heq
          rw [List.length_take]
          omega
        · exact hbound c hmem

theorem chunkFrames_cons_cons (cla ins p2 : Nat) (c c2 : List Nat) (rest2 : List (List Nat)) :
    chunkFrames cla ins p2 (c :: c2 :: rest2) =
      ⟨cla, ins, EIP712_P1_incomplete, p2, c⟩ :: chunkFrames cla ins p2 (c2 :: rest2) := rfl

theorem chunkFrames_spec (cla ins p2 : Nat) : ∀ (chunks : List (List Nat)),
    chunks ≠ [] →
    ∃ body last, chunkFrames cla ins p2 chunks = body ++ [last] ∧
      (chunkFrames cla ins p2 chunks).map APDUCommand.payload = chunks ∧
      (∀ fr ∈ chunkFrames cla ins p2 chunks, fr.cla = cla ∧ fr.ins = ins ∧ fr.p2 = p2) ∧
      (∀ fr ∈ body, fr.p1 = EIP712_P1_incomplete) ∧
      last.p1 = EIP712_P1_complete := by
  intro chunks
  induction chunks with
  | nil => intro h; exact absurd rfl h
  | cons c rest ih =>
    intro _
    cases rest with
    | nil =>
      refine ⟨[], ⟨cla, ins, EIP712_P1_complete, p2, c⟩, rfl, rfl, ?_, by simp, rfl⟩
      intro fr hfr
      simp only [chunkFrames, List.mem_singleton] at hfr
      simp [hfr]
    | cons c2 rest2 =>
      obtain ⟨body, last, heq, hmap, hfr, hbody, hlast⟩ := ih (by simp)
      refine ⟨⟨cla, ins, EIP712_P1_incomplete, p2, c⟩ :: body, last, ?_, ?_, ?_, ?_, hlast⟩
      · rw [chunkFrames_cons_cons, heq]
        rfl
      · rw [chunkFrames_cons_cons, List.map_cons, hmap]
      · intro fr hfr2
        rw [chunkFrames_cons_cons] at hfr2
        rcases List.mem_cons.mp hfr2 with hh | hmem
        · simp [hh]
        · exact hfr fr hmem
      · intro fr hfr2
        rcases List.mem_cons.mp hfr2 with hh | hmem
        · simp [hh]
        · exact hbody fr hmem

/-- Claim C8: an empty payload is sent as a single zero-length complete
frame; a non-empty payload is split into consecutive chunks of at most 255
bytes that reassemble to the payload, all marked incomplete except the last,
which is marked complete; a 600-byte payload yields exactly three chunks of
255, 255 and 90 bytes with markers incomplete, incomplete, complete. -/
theorem c8_sendEIP712Payload_chunking (cla ins p2 : Nat) (payload : List Nat) :
    (payload = [] →
      sendEIP712Payload cla ins p2 payload = [⟨cla, ins, EIP712_P1_complete, p2, []⟩]) ∧
    (payload ≠ [] →
      ∃ body last, sendEIP712Payload cla ins p2 payload = body ++ [last] ∧
        ((body ++ [last]).map APDUCommand.payload).flatten = payload ∧
        (∀ fr ∈ body ++ [last], fr.cla = cla ∧ fr.ins = ins ∧ fr.p2 = p2 ∧
          fr.payload.length ≤ 255) ∧
        (∀ fr ∈ body, fr.p1 = EIP712_P1_incomplete) ∧
        last.p1 = EIP712_P1_complete) ∧
    sendEIP712Payload cla ins p2 (List.replicate 600 0) =
      [⟨cla, ins, EIP712_P1_incomplete, p2, List.replicate 255 0⟩,
       ⟨cla, ins, EIP712_P1_incomplete, p2, List.replicate 255 0⟩,
       ⟨cla, ins, EIP712_P1_complete, p2, List.replicate 90 0⟩] := by
  refine ⟨?_, ?_, by set_option maxRecDepth 100000 in rfl⟩
  · intro h
    subst h
    rfl
  · intro hne
    rw [sendEIP712Payload,
      if_neg (by simpa [List.length_eq_zero] using hne)]
    obtain ⟨hflat, hbound, hchunks⟩ :=
      splitMessageAux_spec payload.length payload 0xff le_rfl (by omega)
    obtain ⟨body, last, heq, hmap, hfr, hbody, hlast⟩ :=
      chunkFrames_spec cla ins p2 (splitMessage payload 0xff) hchunks
    refine ⟨body, last, heq, ?_, ?_, hbody, hlast⟩
    · rw [← heq, hmap]
      exact hflat
    · intro fr hfr2
      rw [← heq] at hfr2
      obtain ⟨h1, h2, h3⟩ := hfr fr hfr2
      refine ⟨h1, h2, h3, ?_⟩
      have hpay : fr.payload ∈ splitMessage payload 0xff := by
        rw [← hmap]
        exact List.mem_map_of_mem _ hfr2
      exact hbound _ hpay

/-! ## Claims about the type-descriptor parser and the hex encoders -/

/-- Claim C9: after array-level stripping and name/size extraction, an
`int`/`uint` base type with numeric suffix `S` is accepted iff `S` is a
multiple of 8 with `S/8 ∈ [1,32]` (hence `S` positive), and the stored size
is `S/8` bytes; a `bytes` base type with suffix `S` is accepted as
`fixed-bytes(S)` iff `S ∈ [1,32]`; a bare `bytes` is `dynamic-bytes`; any
bound violation is a parse error. -/
theorem c9_parseTypeDescriptor_bounds (raw base : String) (lvls : List (Option Nat)) (S : Nat)
    (harr : extractArrayLevels raw = (base, lvls)) :
    (extractTypeName base = .ok ("uint", some S) →
      ((∃ d, parseTypeDescriptor raw = .ok d) ↔ (S % 8 = 0 ∧ 1 ≤ S / 8 ∧ S / 8 ≤ 32)) ∧
      (∀ d, parseTypeDescriptor raw = .ok d →
        d = ⟨.uint (S / 8), .uint, some (S / 8), none, lvls⟩)) ∧
    (extractTypeName base = .ok ("int", some S) →
      ((∃ d, parseTypeDescriptor raw = .ok d) ↔ (S % 8 = 0 ∧ 1 ≤ S / 8 ∧ S / 8 ≤ 32)) ∧
      (∀ d, parseTypeDescriptor raw = .ok d →
        d = ⟨.int (S / 8), .int, some (S / 8), none, lvls⟩)) ∧
    (extractTypeName base = .ok ("bytes", some S) →
      ((∃ d, parseTypeDescriptor raw = .ok d) ↔ (1 ≤ S ∧ S ≤ 32)) ∧
      (∀ d, parseTypeDescriptor raw = .ok d →
        d = ⟨.fixedBytes S, .fixedBytes, some S, none, lvls⟩)) ∧
    (extractTypeName base = .ok ("bytes", none) →
      parseTypeDescriptor raw = .ok ⟨.dynamicBytes, .dynamicBytes, none, none, lvls⟩) := by
  have hunfold : parseTypeDescriptor raw =
      (match extractTypeName base with
       | .error e => .error e
       | .ok (typeName, typeSize) =>
         if typeName = "int" ∨ typeName = "uint" then
           match typeSize with
           | none => .error (typeName ++ " must specify a size multiple of 8")
           | some s =>
               if s % 8 ≠ 0 then .error (typeName ++ " must specify a size multiple of 8")
               else
                 if s / 8 < 1 ∨ s / 8 > 32 then
                   .error (typeName ++ " size must be between 8 and 256 bits")
                 else if typeName = "int" then
                   .ok ⟨.int (s / 8), .int, some (s / 8), none, lvls⟩
                 else
                   .ok ⟨.uint (s / 8), .uint, some (s / 8), none, lvls⟩
         else if typeName = "bytes" then
           match typeSize with
           | some s =>
               if s < 1 ∨ s > 32 then .error ("bytesN size must be between 1 and 32")
               else .ok ⟨.fixedBytes s, .fixedBytes, some s, none, lvls⟩
           | none => .ok ⟨.dynamicBytes, .dynamicBytes, none, none, lvls⟩
         else if typeName = "address" then
           .ok ⟨.address, .address, none, none, lvls⟩
         else if typeName = "bool" then
           .ok ⟨.bool, .bool, none, none, lvls⟩
         else if typeName = "string" then
           .ok ⟨.string, .string, none, none, lvls⟩
         else
           .ok ⟨.custom typeName, .custom, none, some typeName, lvls⟩) := by
    rw [parseTypeDescriptor, harr]
  refine ⟨?_, ?_, ?_, ?_⟩
  · intro hname
    rw [hunfold, hname]
    dsimp only
    rw [if_pos (by simp)]
    constructor
    · constructor
      · rintro ⟨d, hd⟩
        by_cases h8 : S % 8 ≠ 0
        · rw [if_pos h8] at hd; exact absurd hd (by simp)
        · rw [if_neg h8] at hd
          by_cases hb : S / 8 < 1 ∨ S / 8 > 32
          · rw [if_pos hb] at hd; exact absurd hd (by simp)
          · refine ⟨by omega, by omega, by omega⟩
      · rintro ⟨h8, hlo, hhi⟩
        rw [if_neg (by omega), if_neg (by omega), if_neg (by simp)]
        exact ⟨_, rfl⟩
    · intro d hd
      by_cases h8 : S % 8 ≠ 0
      · rw [if_pos h8] at hd; exact absurd hd (by simp)
      · rw [if_neg h8] at hd
        by_cases hb : S / 8 < 1 ∨ S / 8 > 32
        · rw [if_pos hb] at hd; exact absurd hd (by simp)
        · rw [if_neg hb, if_neg (by simp)] at hd
          rw [Except.ok.injEq] at hd
          rw [← hd]
  · intro hname
    rw [hunfold, hname]
    dsimp only
    rw [if_pos (by simp)]
    constructor
    · constructor
      · rintro ⟨d, hd⟩
        by_cases h8 : S % 8 ≠ 0
        · rw [if_pos h8] at hd; exact absurd hd (by simp)
        · rw [if_neg h8] at hd
          by_cases hb : S / 8 < 1 ∨ S / 8 > 32
          · rw [if_pos hb] at hd; exact absurd hd (by simp)
          · refine ⟨by omega, by omega, by omega⟩
      · rintro ⟨h8, hlo, hhi⟩
        rw [if_neg (by omega), if_neg (by omega), if_pos rfl]
        exact ⟨_, rfl⟩
    · intro d hd
      by_cases h8 : S % 8 ≠ 0
      · rw [if_pos h8] at hd; exact absurd hd (by simp)
      · rw [if_neg h8] at hd
        by_cases hb : S / 8 < 1 ∨ S / 8 > 32
        · rw [if_pos hb] at hd; exact absurd hd (by simp)
        · rw [if_neg hb, if_pos rfl] at hd
          rw [Except.ok.injEq] at hd
          rw [← hd]
  · intro hname
    rw [hunfold, hname]
    dsimp only
    rw [if_neg (by simp), if_pos rfl]
    constructor
    · constructor
      · rintro ⟨d, hd⟩
        by_cases hb : S < 1 ∨ S > 32
        · rw [if_pos hb] at hd; exact absurd hd (by simp)
        · exact ⟨by omega, by omega⟩
      · rintro ⟨hlo, hhi⟩
        rw [if_neg (by omega)]
        exact ⟨_, rfl⟩
    · intro d hd
      by_cases hb : S < 1 ∨ S > 32
      · rw [if_pos hb] at hd; exact absurd hd (by simp)
      · rw [if_neg hb, Except.ok.injEq] at hd
        rw [← hd]
  · intro hname
    rw [hunfold, hname]
    dsimp only
    rw [if_neg (by simp), if_pos rfl]

/-- Witness for claim C9: `uint256` parses with stored byte size 32, and
`uint7` (extracted suffix 7) is rejected. -/
theorem c9_parseTypeDescriptor_bounds_witness :
    (∃ d, parseTypeDescriptor "uint256" = .ok d) ∧
    ¬ (∃ d, parseTypeDescriptor "uint7" = .ok d) := by
  constructor
  · exact ((c9_parseTypeDescriptor_bounds "uint256" "uint256" [] 256 (by decide)).1
      (by decide)).1.mpr (by omega)
  · intro hd
    have h := ((c9_parseTypeDescriptor_bounds "uint7" "uint7" [] 7 (by decide)).1
      (by decide)).1.mp hd
    omega

/-- Claim C10: for `address` (width 20) and `fixed-bytes(size)` fields, a
hex-string value decodes to `hexBuffer` bytes and is then sliced to the
declared width; a value decoding to fewer bytes than the width is returned
exactly as decoded, shorter than the width and unpadded, with no error; a
longer value is truncated to the width; an odd-length hex string is decoded
after prepending a zero nibble. -/
theorem c10_encodeFixedHex_truncation (s : String) (w : Nat) :
    encodeFixedHex (some (.vStr s)) w = .ok ((hexBuffer s).take w) ∧
    ((hexBuffer s).length < w → encodeFixedHex (some (.vStr s)) w = .ok (hexBuffer s)) ∧
    (∀ out, encodeFixedHex (some (.vStr s)) w = .ok out →
      out.length ≤ w ∧ out.length ≤ (hexBuffer s).length) ∧
    encodePrimitiveValue .address none (.vStr s) = encodeFixedHex (some (.vStr s)) 20 ∧
    (∀ sz, encodePrimitiveValue .fixedBytes (some sz) (.vStr s) =
      encodeFixedHex (some (.vStr s)) sz) ∧
    (s ≠ "" → (stripHexMarker s).length % 2 = 1 →
      hexBuffer s = decodeHexPairs ('0' :: stripHexMarker s)) := by
  refine ⟨rfl, ?_, ?_, rfl, fun sz => rfl, ?_⟩
  · intro hlt
    rw [show encodeFixedHex (some (.vStr s)) w = .ok ((hexBuffer s).take w) from rfl]
    rw [List.take_of_length_le (by omega)]
  · intro out hout
    rw [show encodeFixedHex (some (.vStr s)) w = .ok ((hexBuffer s).take w) from rfl,
      Except.ok.injEq] at hout
    rw [← hout]
    constructor
    · rw [List.length_take]
      omega
    · rw [List.length_take]
      omega
  · intro hne hodd
    rw [hexBuffer, if_neg hne, padHexChars, if_pos hodd]

/-- Witness for claim C10: `"0xaabb"` for an address decodes to two bytes,
shorter than 20, and is returned unpadded. -/
theorem c10_encodeFixedHex_truncation_witness :
    encodeFixedHex (some (.vStr "0xaabb")) 20 = .ok (hexBuffer "0xaabb") :=
  (c10_encodeFixedHex_truncation "0xaabb" 20).2.1 (by decide)

end HwAppConflux
